import Mathlib

/-!
Verification of the week-window calendar core of `nhmoon`
(`src/calendar/util.rs`, `src/calendar/weeks.rs`, `src/calendar/widget.rs`,
`src/jumpto.rs`, `src/app.rs`).

Dates (`time::Date`, proleptic Gregorian, years `-9999..=9999`) are embedded
as integer day numbers relative to 1970-01-01.  `daysFromCivil` and
`civilFromDays` are the standard civil-calendar conversions (Euclidean
division, positive divisors, so `/` below is floor division), matching the
`time` crate's date arithmetic; `Date::MIN`/`Date::MAX` become the concrete
day numbers `minDay`/`maxDay`, and `Date::next_day`/`previous_day` become
`nextDay`/`previousDay`, returning `none` at the bounds.  `weekday0` is
`Weekday::number_days_from_sunday` (1970-01-01 was a Thursday, index 4).
-/

namespace NH

/-- Day number of the proleptic Gregorian date `y-m-d`, relative to 1970-01-01. -/
def daysFromCivil (y m d : Int) : Int :=
  let y1 := if m ≤ 2 then y - 1 else y
  let era := y1 / 400
  let yoe := y1 - era * 400
  let mp := if 2 < m then m - 3 else m + 9
  let doy := (153 * mp + 2) / 5 + d - 1
  let doe := yoe * 365 + yoe / 4 - yoe / 100 + doy
  era * 146097 + doe - 719468

/-- Inverse of `daysFromCivil`: the `(year, month, day)` of a day number. -/
def civilFromDays (z0 : Int) : Int × Int × Int :=
  let z := z0 + 719468
  let era := z / 146097
  let doe := z - era * 146097
  let yoe := (doe - doe / 1460 + doe / 36524 - doe / 146096) / 365
  let y := yoe + era * 400
  let doy := doe - (365 * yoe + yoe / 4 - yoe / 100)
  let mp := (5 * doy + 2) / 153
  let d := doy - (153 * mp + 2) / 5 + 1
  let m := if mp < 10 then mp + 3 else mp - 9
  (if m ≤ 2 then y + 1 else y, m, d)

/-- Day number of `time::Date::MIN` (`-9999-01-01`). -/
def minDay : Int := daysFromCivil (-9999) 1 1

/-- Day number of `time::Date::MAX` (`9999-12-31`). -/
def maxDay : Int := daysFromCivil 9999 12 31

/-- `Weekday::number_days_from_sunday` of a day number (Sunday = 0 … Saturday = 6). -/
def weekday0 (n : Int) : Nat := ((n + 4) % 7).toNat

/-- `Date::next_day`: `none` when the maximum date would be overflowed. -/
def nextDay (n : Int) : Option Int := if n < maxDay then some (n + 1) else none

/-- `Date::previous_day`: `none` when the minimum date would be underflowed. -/
def previousDay (n : Int) : Option Int := if minDay < n then some (n - 1) else none

theorem minDay_eq : minDay = -4371587 := by decide
theorem maxDay_eq : maxDay = 2932896 := by decide

example : civilFromDays (daysFromCivil 2025 1 22) = (2025, 1, 22) := by decide
example : civilFromDays (daysFromCivil (-9999) 1 1) = (-9999, 1, 1) := by decide
example : civilFromDays (daysFromCivil 9999 12 31) = (9999, 12, 31) := by decide
example : civilFromDays (daysFromCivil 2024 2 29) = (2024, 2, 29) := by decide
example : daysFromCivil 1970 1 1 = 0 := by decide

-- 2023-11-16 was a Thursday (test_make in src/calendar/util.rs); 2023-11-12 a Sunday.
example : weekday0 (daysFromCivil 2023 11 16) = 4 := by decide
example : weekday0 (daysFromCivil 2023 11 12) = 0 := by decide
-- Date::MIN is a Monday (the day before it would be a Sunday: comment in widget.rs).
theorem weekday0_minDay : weekday0 minDay = 1 := by decide
theorem weekday0_maxDay : weekday0 maxDay = 5 := by decide

/-- `StyledDate`: a date tagged with the display style the policy gave it.
`ratatui::style::Style` values are opaque, embedded as `Nat`; the pluggable
`DateStyler` capability becomes a function `Int → Nat` threaded through the
factory operations. -/
structure StyledDate where
  date : Int
  style : Nat
deriving DecidableEq

/-- `Week` (src/calendar/util.rs): an array of 7 optional `StyledDate` slots
indexed by `weekday0` (Sunday..Saturday).  The source invariant is only that
at least one slot is `Some`; weeks touching the ends of time are partial. -/
abbrev Week := List (Option StyledDate)

/-- `Week::set`: store a styled date in the slot of its weekday. -/
def Week.set (w : Week) (sd : StyledDate) : Week := List.set w (weekday0 sd.date) (some sd)

/-- `Week::new`: a week with a single populated slot. -/
def Week.new (sd : StyledDate) : Week := Week.set (List.replicate 7 none) sd

/-- `Week::get`: `self.0.get(wd.index0()).copied().flatten()`. -/
def Week.get (w : Week) (wd : Nat) : Option StyledDate := (List.get? w wd).join

/-- `WeekFactory::style_date`. -/
def styleDate (styler : Int → Nat) (d : Int) : StyledDate := ⟨d, styler d⟩

/-- `iter_days_before(date).take(k)`: the days before `date`, newest first,
stopping early at the minimum date. -/
def iterDaysBefore (d : Int) : Nat → List Int
  | 0 => []
  | k + 1 =>
    match previousDay d with
    | some p => p :: iterDaysBefore p k
    | none => []

/-- `iter_days_after(date).take(k)`: the days after `date`, oldest first,
stopping early at the maximum date. -/
def iterDaysAfter (d : Int) : Nat → List Int
  | 0 => []
  | k + 1 =>
    match nextDay d with
    | some p => p :: iterDaysAfter p k
    | none => []

/-- `WeekFactory::make`: the `Week` containing `date`, which can be at any day
of the week. -/
def make (styler : Int → Nat) (d : Int) : Week :=
  let i := weekday0 d
  let w0 := Week.new (styleDate styler d)
  let w1 := (iterDaysBefore d i).foldl (fun w x => Week.set w (styleDate styler x)) w0
  (iterDaysAfter d (7 - i - 1)).foldl (fun w x => Week.set w (styleDate styler x)) w1

/-- `WeekFactory::week_before`. -/
def week_before (styler : Int → Nat) (w : Week) : Option Week :=
  ((Week.get w 0).bind (fun sd => previousDay sd.date)).map (make styler)

/-- `WeekFactory::week_after`. -/
def week_after (styler : Int → Nat) (w : Week) : Option Week :=
  ((Week.get w 6).bind (fun sd => nextDay sd.date)).map (make styler)

/-- `iter_weeks_before(week).take(k)`: successive `week_before`s, newest
first. -/
def iterWeeksBefore (styler : Int → Nat) (w : Week) : Nat → List Week
  | 0 => []
  | k + 1 =>
    match week_before styler w with
    | some p => p :: iterWeeksBefore styler p k
    | none => []

/-- `iter_weeks_after(week).take(k)`: successive `week_after`s, oldest first. -/
def iterWeeksAfter (styler : Int → Nat) (w : Week) : Nat → List Week
  | 0 => []
  | k + 1 =>
    match week_after styler w with
    | some p => p :: iterWeeksAfter styler p k
    | none => []

/-- `WeekFactory::weeks_before`: up to `qty` weeks before `week`, in ascending
date order (the source builds a `NonEmptyVecDeque` by `push_front`, which
reverses the newest-first iterator); `none` when there are no weeks before
`week` at all. -/
def weeksBefore (styler : Int → Nat) (w : Week) (qty : Nat) : Option (List Week) :=
  if iterWeeksBefore styler w qty = [] then none
  else some (iterWeeksBefore styler w qty).reverse

/-- `WeekFactory::weeks_after`: up to `qty` weeks after `week`, in ascending
date order; `none` when there are no weeks after `week` at all. -/
def weeksAfter (styler : Int → Nat) (w : Week) (qty : Nat) : Option (List Week) :=
  if iterWeeksAfter styler w qty = [] then none
  else some (iterWeeksAfter styler w qty)

/-- `WeekFactory::around_date`.  The `NonEmptyVecDeque` is a plain list, front
first; `push_front` is cons, so a `for`-loop of `push_front`s is a `foldl` of
cons, and `unfilled()` (`capacity - len`) is `week_qty - length`, the deque
having been allocated with capacity `week_qty` and never growing past it
here. -/
def around_date (styler : Int → Nat) (d : Int) (week_qty : Nat) : List Week :=
  let startWeek := make styler d
  let weeks1 := (iterWeeksBefore styler startWeek ((week_qty - 1) / 2)).foldl
    (fun acc w => w :: acc) [startWeek]
  let weeks2 := weeks1 ++ iterWeeksAfter styler startWeek (week_qty - weeks1.length)
  if 0 < week_qty - weeks2.length then
    (iterWeeksBefore styler (weeks2.headD []) (week_qty - weeks2.length)).foldl
      (fun acc w => w :: acc) weeks2
  else weeks2

/-- `WeekWindow` (src/calendar/weeks.rs).  The `week_factory` field's style
policy is the `styler` argument threaded through the operations. -/
structure WeekWindow where
  today : Int
  start_date : Int
  weeks : Option (List Week)
deriving DecidableEq

/-- `WeekWindow::new`. -/
def WeekWindow.new (today : Int) : WeekWindow := ⟨today, today, none⟩

/-- Builder `WeekWindow::start_date`. -/
def WeekWindow.startDate (ww : WeekWindow) (d : Int) : WeekWindow := ⟨ww.today, d, ww.weeks⟩

/-- `WeekWindow::ensure_weeks`.  `week_qty` is a `NonZeroUsize` in the source;
the front/back `expect`s on the buffer are modelled with `headD`/`getLastD`
defaults, unreachable while the buffer is nonempty.  In the under-length
branch the source pushes each element of the ascending `weeks_before` run to
the front in iteration order (`for w in prextension { weeks.push_front(w) }`),
modelled by the `foldl` of cons. -/
def ensure_weeks (styler : Int → Nat) (ww : WeekWindow) (week_qty : Nat) : WeekWindow :=
  match ww.weeks with
  | some weeks =>
    if weeks.length < week_qty then
      let extension := (weeksAfter styler (weeks.getLastD []) (week_qty - weeks.length)).getD []
      let weeks1 := weeks ++ extension
      let weeks2 :=
        if weeks1.length < week_qty then
          match weeksBefore styler (weeks1.headD []) (week_qty - weeks1.length) with
          | some pre => pre.foldl (fun acc w => w :: acc) weeks1
          | none => weeks1
        else weeks1
      ⟨ww.today, ww.start_date, some weeks2⟩
    else if week_qty < weeks.length then ⟨ww.today, ww.start_date, some (weeks.take week_qty)⟩
    else ww
  | none => ⟨ww.today, ww.start_date, some (around_date styler ww.start_date week_qty)⟩

/-- `WeekWindow::jump_to_today`. -/
def jump_to_today (styler : Int → Nat) (ww : WeekWindow) : WeekWindow :=
  match ww.weeks with
  | some weeks => ⟨ww.today, ww.start_date, some (around_date styler ww.today weeks.length)⟩
  | none => ww

/-- Modelled from the spec: `WeekWindow::jump_to_date` is called by
`AppState::jump_to` (src/app.rs) but its definition is not among the provided
sources.  Spec 4.2: "`jump_to_date(date)`: same as `jump_to_today` but
recentering on an arbitrary caller-supplied date". -/
def jump_to_date (styler : Int → Nat) (ww : WeekWindow) (date : Int) : WeekWindow :=
  match ww.weeks with
  | some weeks => ⟨ww.today, ww.start_date, some (around_date styler date weeks.length)⟩
  | none => ww

/-- `WeekWindow::one_week_forwards`; the `Bool` is `is_ok()` of the returned
`Result<(), OutOfTimeError>`.  `push_back` then `pop_front`. -/
def one_week_forwards (styler : Int → Nat) (ww : WeekWindow) : WeekWindow × Bool :=
  match ww.weeks with
  | none => (ww, true)
  | some weeks =>
    match week_after styler (weeks.getLastD []) with
    | some w => (⟨ww.today, ww.start_date, some ((weeks ++ [w]).drop 1)⟩, true)
    | none => (ww, false)

/-- `WeekWindow::one_week_backwards`: `push_front` then `pop_back`. -/
def one_week_backwards (styler : Int → Nat) (ww : WeekWindow) : WeekWindow × Bool :=
  match ww.weeks with
  | none => (ww, true)
  | some weeks =>
    match week_before styler (weeks.headD []) with
    | some w => (⟨ww.today, ww.start_date, some ((w :: weeks).dropLast)⟩, true)
    | none => (ww, false)

/-- `WeekWindow::one_page_forwards`: a full page replaces the buffer; a short
page is appended after draining the same number of old weeks from the front. -/
def one_page_forwards (styler : Int → Nat) (ww : WeekWindow) : WeekWindow × Bool :=
  match ww.weeks with
  | none => (ww, true)
  | some weeks =>
    match weeksAfter styler (weeks.getLastD []) weeks.length with
    | some page =>
      if page.length = weeks.length then (⟨ww.today, ww.start_date, some page⟩, true)
      else (⟨ww.today, ww.start_date, some (weeks.drop page.length ++ page)⟩, true)
    | none => (ww, false)

/-- `WeekWindow::one_page_backwards`: a short page keeps the leading
`len - page.len` old weeks (`truncate` then `append`). -/
def one_page_backwards (styler : Int → Nat) (ww : WeekWindow) : WeekWindow × Bool :=
  match ww.weeks with
  | none => (ww, true)
  | some weeks =>
    match weeksBefore styler (weeks.headD []) weeks.length with
    | some page =>
      if page.length < weeks.length then
        (⟨ww.today, ww.start_date, some (page ++ weeks.take (weeks.length - page.length))⟩, true)
      else (⟨ww.today, ww.start_date, some page⟩, true)
    | none => (ww, false)

/-- `JumpToState` (src/jumpto.rs): sign, four year digits, two month digits,
two day digits, and the cursor position (8 = `ENTER_POS`). -/
structure JumpToState where
  negative : Bool
  year : List (Option Nat)
  month : List (Option Nat)
  day : List (Option Nat)
  pos : Nat
deriving DecidableEq

/-- `JumpToState::new` (all fields empty, cursor at the first year digit). -/
def JumpToState.new : JumpToState := ⟨false, [none, none, none, none], [none, none], [none, none], 0⟩

inductive JumpToInput where
  | Negative
  | Positive
  | Digit (d : Nat)
  | Backspace
  | Enter
deriving DecidableEq

/-- `JumpToOutput`; `Jump` carries the day number of the committed
`time::Date`. -/
inductive JumpToOutput where
  | Ok
  | Invalid
  | Jump (day : Int)
deriving DecidableEq

def isLeapYear (y : Int) : Bool := y % 4 == 0 && (y % 100 != 0 || y % 400 == 0)

def daysInMonth (y m : Int) : Int :=
  if m = 2 then (if isLeapYear y then 29 else 28)
  else if m = 4 ∨ m = 6 ∨ m = 9 ∨ m = 11 then 30
  else 31

/-- Success condition of `time::Date::from_calendar_date` (its month argument
being already a valid `Month`): year within the representable range and day
within the month. -/
def fromCalendarDateOk (y m d : Int) : Bool :=
  -9999 ≤ y && y ≤ 9999 && 1 ≤ d && d ≤ daysInMonth y m

/-- `JumpToState::handle_input`.  The `expect`s on digit slots are modelled by
`getD 0`, unreachable at `pos = ENTER_POS` where all slots are filled.  Note
that the source's Enter arm folds `self.month` a second time to build the
`day` value (`for d in self.month` at src/jumpto.rs lines 163-167). -/
def handle_input (st : JumpToState) (input : JumpToInput) : JumpToState × JumpToOutput :=
  match input, st.pos with
  | .Negative, 0 => (⟨!st.negative, st.year, st.month, st.day, st.pos⟩, .Ok)
  | .Positive, 0 => (⟨false, st.year, st.month, st.day, st.pos⟩, .Ok)
  | .Digit d, pos =>
    if pos < 8 then
      if pos < 4 then (⟨st.negative, st.year.set pos (some d), st.month, st.day, pos + 1⟩, .Ok)
      else if pos < 6 then
        (⟨st.negative, st.year, st.month.set (pos - 4) (some d), st.day, pos + 1⟩, .Ok)
      else (⟨st.negative, st.year, st.month, st.day.set (pos - 6) (some d), pos + 1⟩, .Ok)
    else (st, .Invalid)
  | .Backspace, pos =>
    if 1 ≤ pos then
      let p := pos - 1
      if p < 4 then (⟨st.negative, st.year.set p none, st.month, st.day, p⟩, .Ok)
      else if p < 6 then (⟨st.negative, st.year, st.month.set (p - 4) none, st.day, p⟩, .Ok)
      else if p < 8 then (⟨st.negative, st.year, st.month, st.day.set (p - 6) none, p⟩, .Ok)
      else (st, .Invalid)
    else (st, .Invalid)
  | .Enter, pos =>
    if pos = 8 then
      let year0 := st.year.foldl (fun acc d => acc * 10 + Int.ofNat (d.getD 0)) 0
      let year := if st.negative then -year0 else year0
      let month := st.month.foldl (fun acc d => acc * 10 + Int.ofNat (d.getD 0)) 0
      if 1 ≤ month ∧ month ≤ 12 then
        let day := st.month.foldl (fun acc d => acc * 10 + Int.ofNat (d.getD 0)) 0
        if fromCalendarDateOk year month day then (st, .Jump (daysFromCivil year month day))
        else (st, .Invalid)
      else (st, .Invalid)
    else (st, .Invalid)
  | _, _ => (st, .Invalid)

-- Sanity: `make` at 2023-11-16 (a Thursday) spans 2023-11-12 .. 2023-11-18,
-- matching test_make in src/calendar/util.rs.
example :
    make (fun _ => 0) (daysFromCivil 2023 11 16) =
      (List.range 7).map (fun i => some (styleDate (fun _ => 0) (daysFromCivil 2023 11 12 + i))) := by
  decide

/-!
Abstraction layer.  Every week the factory can produce is the "canonical week"
of a Sunday-aligned day number `s`: slot `i` holds `s + i` when that day is
representable and `none` otherwise.  The Sunday-aligned day numbers form the
arithmetic progression `sun 0, sun 1, …, sun NIdx` (`sun 0` is the Sunday
just before `Date::MIN`, a partial week; `sun NIdx` is the Sunday of the week
containing `Date::MAX`, also partial).
-/

/-- The canonical Sunday of the week containing `d` (may fall before
`Date::MIN`). -/
def sundayOf (d : Int) : Int := d - weekday0 d

/-- The Sunday of the (partial) first representable week. -/
def minSunday : Int := minDay - 1

/-- The Sunday of the (partial) last representable week. -/
def maxSunday : Int := maxDay - 5

/-- Index of the last representable week: there are `NIdx + 1` weeks that
intersect the representable date range. -/
def NIdx : Nat := 1043497

theorem minSunday_eq : minSunday = -4371588 := by decide
theorem maxSunday_eq : maxSunday = 2932891 := by decide
theorem maxSunday_NIdx : maxSunday = minSunday + 7 * NIdx := by decide

/-- The Sunday of the week with index `m`. -/
def sun (m : Nat) : Int := minSunday + 7 * m

/-- The canonical week starting at Sunday `s`: slot `i` holds day `s + i` when
representable. -/
def weekOf (styler : Int → Nat) (s : Int) : Week :=
  (List.range 7).map fun (i : Nat) =>
    if minDay ≤ s + (i : Int) ∧ s + (i : Int) ≤ maxDay then some (styleDate styler (s + (i : Int))) else none

/-- The canonical week with index `m`. -/
def weekAt (styler : Int → Nat) (m : Nat) : Week := weekOf styler (sun m)

/-- `n` consecutive canonical weeks starting at index `m`. -/
def runAt (styler : Int → Nat) (m n : Nat) : List Week :=
  (List.range n).map fun j => weekAt styler (m + j)

theorem weekday0_lt (n : Int) : weekday0 n < 7 := by
  unfold weekday0; omega

theorem weekday0_sundayOf (d : Int) : weekday0 (sundayOf d) = 0 := by
  unfold sundayOf weekday0; omega

theorem weekday0_add (s : Int) (t : Nat) (hs : weekday0 s = 0) (ht : t < 7) :
    weekday0 (s + t) = t := by
  unfold weekday0 at hs ⊢; omega

theorem weekday0_sun (m : Nat) : weekday0 (sun m) = 0 := by
  unfold sun weekday0; rw [minSunday_eq]; omega

theorem sundayOf_self (s : Int) (hs : weekday0 s = 0) : sundayOf s = s := by
  unfold sundayOf; omega

theorem iterDaysBefore_succ_pos (d : Int) (k : Nat) (hd : minDay < d) :
    iterDaysBefore d (k + 1) = (d - 1) :: iterDaysBefore (d - 1) k := by
  rw [iterDaysBefore]
  unfold previousDay
  rw [if_pos hd]

theorem iterDaysBefore_succ_neg (d : Int) (k : Nat) (hd : ¬minDay < d) :
    iterDaysBefore d (k + 1) = [] := by
  rw [iterDaysBefore]
  unfold previousDay
  rw [if_neg hd]

theorem iterDaysAfter_succ_pos (d : Int) (k : Nat) (hd : d < maxDay) :
    iterDaysAfter d (k + 1) = (d + 1) :: iterDaysAfter (d + 1) k := by
  rw [iterDaysAfter]
  unfold nextDay
  rw [if_pos hd]

theorem iterDaysAfter_succ_neg (d : Int) (k : Nat) (hd : ¬d < maxDay) :
    iterDaysAfter d (k + 1) = [] := by
  rw [iterDaysAfter]
  unfold nextDay
  rw [if_neg hd]

theorem iterDaysBefore_eq (k : Nat) (d : Int) (h : minDay ≤ d) :
    iterDaysBefore d k =
      (List.range (min k (d - minDay).toNat)).map (fun (j : Nat) => d - 1 - (j : Int)) := by
  induction k generalizing d with
  | zero => simp [iterDaysBefore]
  | succ k ih =>
    by_cases hd : minDay < d
    · rw [iterDaysBefore_succ_pos d k hd, ih (d - 1) (by omega)]
      have h1 : min (k + 1) (d - minDay).toNat = min k (d - 1 - minDay).toNat + 1 := by omega
      rw [h1, List.range_succ_eq_map, List.map_cons, List.map_map]
      have h2 : ((fun (j : Nat) => d - 1 - (j : Int)) ∘ Nat.succ) = fun (j : Nat) => d - 1 - 1 - (j : Int) := by
        funext j; simp [Nat.succ_eq_add_one]; push_cast; ring
      rw [h2]
      norm_num
    · rw [iterDaysBefore_succ_neg d k hd]
      have h0 : (d - minDay).toNat = 0 := by omega
      simp [h0]

theorem iterDaysAfter_eq (k : Nat) (d : Int) (h : d ≤ maxDay) :
    iterDaysAfter d k =
      (List.range (min k (maxDay - d).toNat)).map (fun (j : Nat) => d + 1 + (j : Int)) := by
  induction k generalizing d with
  | zero => simp [iterDaysAfter]
  | succ k ih =>
    by_cases hd : d < maxDay
    · rw [iterDaysAfter_succ_pos d k hd, ih (d + 1) (by omega)]
      have h1 : min (k + 1) (maxDay - d).toNat = min k (maxDay - (d + 1)).toNat + 1 := by omega
      rw [h1, List.range_succ_eq_map, List.map_cons, List.map_map]
      have h2 : ((fun (j : Nat) => d + 1 + (j : Int)) ∘ Nat.succ) = fun (j : Nat) => d + 1 + 1 + (j : Int) := by
        funext j; simp [Nat.succ_eq_add_one]; push_cast; ring
      rw [h2]
      norm_num
    · rw [iterDaysAfter_succ_neg d k hd]
      have h0 : (maxDay - d).toNat = 0 := by omega
      simp [h0]

theorem foldl_set_length (styler : Int → Nat) (l : List Int) (w : Week) :
    (l.foldl (fun w x => Week.set w (styleDate styler x)) w).length = w.length := by
  induction l generalizing w with
  | nil => rfl
  | cons x t ih =>
    rw [List.foldl_cons, ih]
    unfold Week.set
    exact List.length_set ..

theorem set_getElem? (w : Week) (sd : StyledDate) (hw : w.length = 7) (k : Nat) :
    (Week.set w sd)[k]? = if weekday0 sd.date = k then some (some sd) else w[k]? := by
  unfold Week.set
  rw [List.getElem?_set]
  by_cases h : weekday0 sd.date = k
  · rw [if_pos h, if_pos h, if_pos (by have := weekday0_lt sd.date; omega)]
  · rw [if_neg h, if_neg h]

theorem new_length (sd : StyledDate) : (Week.new sd).length = 7 := by
  unfold Week.new Week.set
  simp

theorem new_getElem? (sd : StyledDate) (k : Nat) :
    (Week.new sd)[k]? =
      if weekday0 sd.date = k then some (some sd)
      else if k < 7 then some none else none := by
  unfold Week.new
  rw [set_getElem? _ _ (by simp) k]
  by_cases h : weekday0 sd.date = k
  · rw [if_pos h, if_pos h]
  · rw [if_neg h, if_neg h, List.getElem?_replicate]

theorem fold_before_getElem? (styler : Int → Nat) (s : Int) (hs : weekday0 s = 0)
    (i : Nat) (hi : i < 7) (b : Nat) (hb : b ≤ i) (w : Week) (hw : w.length = 7) (k : Nat) :
    (((List.range b).map (fun (j : Nat) => s + (i : Int) - 1 - (j : Int))).foldl
        (fun w x => Week.set w (styleDate styler x)) w)[k]? =
      if i - b ≤ k ∧ k < i then some (some (styleDate styler (s + (k : Int)))) else w[k]? := by
  induction b with
  | zero =>
    simp only [List.range_zero, List.map_nil, List.foldl_nil]
    rw [if_neg (by omega)]
  | succ b ih =>
    rw [List.range_succ, List.map_append, List.foldl_append]
    simp only [List.map_cons, List.map_nil, List.foldl_cons, List.foldl_nil]
    have hlen : (((List.range b).map (fun (j : Nat) => s + (i : Int) - 1 - (j : Int))).foldl
        (fun w x => Week.set w (styleDate styler x)) w).length = 7 := by
      rw [foldl_set_length]; exact hw
    rw [set_getElem? _ _ hlen k]
    have hwd : weekday0 (styleDate styler (s + (i : Int) - 1 - (b : Int))).date = i - 1 - b := by
      show weekday0 (s + (i : Int) - 1 - (b : Int)) = i - 1 - b
      have hcast : s + (i : Int) - 1 - (b : Int) = s + ((i - 1 - b : Nat) : Int) := by omega
      rw [hcast]
      exact weekday0_add s _ hs (by omega)
    rw [hwd]
    by_cases hk : i - 1 - b = k
    · rw [if_pos hk, if_pos (by omega)]
      have : s + (i : Int) - 1 - (b : Int) = s + (k : Int) := by omega
      rw [this]
    · rw [if_neg hk, ih (by omega)]
      by_cases hk2 : i - b ≤ k ∧ k < i
      · rw [if_pos hk2, if_pos (by omega)]
      · rw [if_neg hk2, if_neg (by omega)]

theorem fold_after_getElem? (styler : Int → Nat) (s : Int) (hs : weekday0 s = 0)
    (i : Nat) (a : Nat) (ha : i + 1 + a ≤ 7) (w : Week) (hw : w.length = 7) (k : Nat) :
    (((List.range a).map (fun (j : Nat) => s + (i : Int) + 1 + (j : Int))).foldl
        (fun w x => Week.set w (styleDate styler x)) w)[k]? =
      if i + 1 ≤ k ∧ k < i + 1 + a then some (some (styleDate styler (s + (k : Int)))) else w[k]? := by
  induction a with
  | zero =>
    simp only [List.range_zero, List.map_nil, List.foldl_nil]
    rw [if_neg (by omega)]
  | succ a ih =>
    rw [List.range_succ, List.map_append, List.foldl_append]
    simp only [List.map_cons, List.map_nil, List.foldl_cons, List.foldl_nil]
    have hlen : (((List.range a).map (fun (j : Nat) => s + (i : Int) + 1 + (j : Int))).foldl
        (fun w x => Week.set w (styleDate styler x)) w).length = 7 := by
      rw [foldl_set_length]; exact hw
    rw [set_getElem? _ _ hlen k]
    have hwd : weekday0 (styleDate styler (s + (i : Int) + 1 + (a : Int))).date = i + 1 + a := by
      show weekday0 (s + (i : Int) + 1 + (a : Int)) = i + 1 + a
      have hcast : s + (i : Int) + 1 + (a : Int) = s + ((i + 1 + a : Nat) : Int) := by omega
      rw [hcast]
      exact weekday0_add s _ hs (by omega)
    rw [hwd]
    by_cases hk : i + 1 + a = k
    · rw [if_pos hk, if_pos (by omega)]
      have : s + (i : Int) + 1 + (a : Int) = s + (k : Int) := by omega
      rw [this]
    · rw [if_neg hk, ih (by omega)]
      by_cases hk2 : i + 1 ≤ k ∧ k < i + 1 + a
      · rw [if_pos hk2, if_pos (by omega)]
      · rw [if_neg hk2, if_neg (by omega)]

theorem weekOf_length (styler : Int → Nat) (s : Int) : (weekOf styler s).length = 7 := by
  unfold weekOf
  simp

theorem weekOf_getElem? (styler : Int → Nat) (s : Int) (k : Nat) :
    (weekOf styler s)[k]? =
      if k < 7 then
        some (if minDay ≤ s + (k : Int) ∧ s + (k : Int) ≤ maxDay
          then some (styleDate styler (s + (k : Int))) else none)
      else none := by
  unfold weekOf
  rw [List.getElem?_map]
  by_cases hk : k < 7
  · rw [List.getElem?_range hk, if_pos hk]
    rfl
  · rw [List.getElem?_eq_none (by simp; omega), if_neg hk]
    rfl

/-- The central structure lemma: for a representable date `d`, `make` yields
the canonical week of `d`'s Sunday. -/
theorem make_eq (styler : Int → Nat) (d : Int) (h1 : minDay ≤ d) (h2 : d ≤ maxDay) :
    make styler d = weekOf styler (sundayOf d) := by
  apply List.ext_getElem?
  intro k
  have hi : weekday0 d < 7 := weekday0_lt d
  have hs0 : weekday0 (sundayOf d) = 0 := weekday0_sundayOf d
  have hds : d = sundayOf d + (weekday0 d : Int) := by unfold sundayOf; omega
  simp only [make]
  rw [iterDaysBefore_eq (weekday0 d) d h1, iterDaysAfter_eq (7 - weekday0 d - 1) d h2]
  have e1 : (fun (j : Nat) => d - 1 - (j : Int)) =
      fun (j : Nat) => sundayOf d + (weekday0 d : Int) - 1 - (j : Int) := by
    funext j; omega
  have e2 : (fun (j : Nat) => d + 1 + (j : Int)) =
      fun (j : Nat) => sundayOf d + (weekday0 d : Int) + 1 + (j : Int) := by
    funext j; omega
  rw [e1, e2]
  rw [fold_after_getElem? styler (sundayOf d) hs0 (weekday0 d)
    (min (7 - weekday0 d - 1) (maxDay - d).toNat) (by omega)
    _ (by rw [foldl_set_length]; exact new_length _) k]
  rw [fold_before_getElem? styler (sundayOf d) hs0 (weekday0 d) hi
    (min (weekday0 d) (d - minDay).toNat) (by omega) _ (new_length _) k]
  rw [new_getElem?]
  rw [weekOf_getElem?]
  have hsd : (styleDate styler d).date = d := rfl
  rw [hsd]
  by_cases hk7 : k < 7
  · rw [if_pos hk7]
    by_cases hin : minDay ≤ sundayOf d + (k : Int) ∧ sundayOf d + (k : Int) ≤ maxDay
    · rw [if_pos hin]
      by_cases hup : weekday0 d + 1 ≤ k ∧
          k < weekday0 d + 1 + min (7 - weekday0 d - 1) (maxDay - d).toNat
      · rw [if_pos hup, if_pos hk7]
      · rw [if_neg hup]
        by_cases hlo : weekday0 d - min (weekday0 d) (d - minDay).toNat ≤ k ∧ k < weekday0 d
        · rw [if_pos hlo, if_pos hk7]
        · rw [if_neg hlo]
          have hki : weekday0 d = k := by omega
          rw [if_pos hki, if_pos hk7]
          exact congrArg (fun x => some (some (styleDate styler x))) (by omega)
    · rw [if_neg hin]
      rw [if_neg (by omega), if_neg (by omega), if_neg (by omega), if_pos hk7]
  · rw [if_neg hk7]
    rw [if_neg (by omega), if_neg (by omega), if_neg (by omega), if_neg hk7]

/-- Index of the week containing `d` among the representable weeks. -/
def sundayIndex (d : Int) : Nat := ((sundayOf d - minSunday) / 7).toNat

theorem sundayIndex_spec (d : Int) (h1 : minDay ≤ d) (h2 : d ≤ maxDay) :
    sundayIndex d ≤ NIdx ∧ sundayOf d = sun (sundayIndex d) := by
  unfold sundayIndex sun sundayOf weekday0 NIdx
  rw [minSunday_eq]
  rw [minDay_eq] at h1
  rw [maxDay_eq] at h2
  omega

theorem weekOf_get (styler : Int → Nat) (s : Int) (k : Nat) (hk : k < 7) :
    Week.get (weekOf styler s) k =
      if minDay ≤ s + (k : Int) ∧ s + (k : Int) ≤ maxDay
        then some (styleDate styler (s + (k : Int))) else none := by
  unfold Week.get
  rw [List.get?_eq_getElem?, weekOf_getElem? styler s k, if_pos hk]
  by_cases h : minDay ≤ s + (k : Int) ∧ s + (k : Int) ≤ maxDay
  · rw [if_pos h]
    rfl
  · rw [if_neg h]
    rfl

theorem sundayOf_eq (s : Int) (t : Nat) (hs : weekday0 s = 0) (ht : t < 7) :
    sundayOf (s + (t : Int)) = s := by
  unfold sundayOf
  rw [weekday0_add s t hs ht]
  omega

theorem week_before_at (styler : Int → Nat) (m : Nat) (hm : m ≤ NIdx) :
    week_before styler (weekAt styler m) =
      if 1 ≤ m then some (weekAt styler (m - 1)) else none := by
  have hNI : (NIdx : Nat) = 1043497 := rfl
  have hsun : sun m = -4371588 + 7 * (m : Int) := by unfold sun; rw [minSunday_eq]
  unfold week_before weekAt
  rw [weekOf_get styler (sun m) 0 (by omega)]
  by_cases hm1 : 1 ≤ m
  · rw [if_pos (by rw [minDay_eq, maxDay_eq]; constructor <;> omega), if_pos hm1]
    show (previousDay (styleDate styler (sun m + ((0 : Nat) : Int))).date).map (make styler) =
      some (weekOf styler (sun (m - 1)))
    have hd : (styleDate styler (sun m + ((0 : Nat) : Int))).date = sun m + ((0 : Nat) : Int) := rfl
    rw [hd]
    unfold previousDay
    rw [if_pos (by rw [minDay_eq]; omega)]
    show some (make styler (sun m + ((0 : Nat) : Int) - 1)) = some (weekOf styler (sun (m - 1)))
    rw [make_eq styler _ (by rw [minDay_eq]; omega) (by rw [maxDay_eq]; omega)]
    have he : sun m + ((0 : Nat) : Int) - 1 = sun (m - 1) + ((6 : Nat) : Int) := by
      unfold sun; rw [minSunday_eq]; omega
    rw [he, sundayOf_eq _ 6 (weekday0_sun _) (by omega)]
  · rw [if_neg (by rw [minDay_eq, maxDay_eq]; omega), if_neg hm1]
    rfl

theorem week_after_at (styler : Int → Nat) (m : Nat) (hm : m ≤ NIdx) :
    week_after styler (weekAt styler m) =
      if m < NIdx then some (weekAt styler (m + 1)) else none := by
  have hNI : (NIdx : Nat) = 1043497 := rfl
  have hsun : sun m = -4371588 + 7 * (m : Int) := by unfold sun; rw [minSunday_eq]
  unfold week_after weekAt
  rw [weekOf_get styler (sun m) 6 (by omega)]
  by_cases hm1 : m < NIdx
  · rw [if_pos (by rw [minDay_eq, maxDay_eq]; constructor <;> omega), if_pos hm1]
    show (nextDay (styleDate styler (sun m + ((6 : Nat) : Int))).date).map (make styler) =
      some (weekOf styler (sun (m + 1)))
    have hd : (styleDate styler (sun m + ((6 : Nat) : Int))).date = sun m + ((6 : Nat) : Int) := rfl
    rw [hd]
    unfold nextDay
    rw [if_pos (by rw [maxDay_eq]; omega)]
    show some (make styler (sun m + ((6 : Nat) : Int) + 1)) = some (weekOf styler (sun (m + 1)))
    rw [make_eq styler _ (by rw [minDay_eq]; omega) (by rw [maxDay_eq]; omega)]
    have he : sun m + ((6 : Nat) : Int) + 1 = sun (m + 1) + ((0 : Nat) : Int) := by
      unfold sun; rw [minSunday_eq]; push_cast; ring
    rw [he, sundayOf_eq _ 0 (weekday0_sun _) (by omega)]
  · rw [if_neg (by rw [minDay_eq, maxDay_eq]; omega), if_neg hm1]
    rfl

theorem iterWeeksBefore_succ_pos (styler : Int → Nat) (w p : Week) (k : Nat)
    (h : week_before styler w = some p) :
    iterWeeksBefore styler w (k + 1) = p :: iterWeeksBefore styler p k := by
  rw [iterWeeksBefore, h]

theorem iterWeeksBefore_succ_neg (styler : Int → Nat) (w : Week) (k : Nat)
    (h : week_before styler w = none) :
    iterWeeksBefore styler w (k + 1) = [] := by
  rw [iterWeeksBefore, h]

theorem iterWeeksAfter_succ_pos (styler : Int → Nat) (w p : Week) (k : Nat)
    (h : week_after styler w = some p) :
    iterWeeksAfter styler w (k + 1) = p :: iterWeeksAfter styler p k := by
  rw [iterWeeksAfter, h]

theorem iterWeeksAfter_succ_neg (styler : Int → Nat) (w : Week) (k : Nat)
    (h : week_after styler w = none) :
    iterWeeksAfter styler w (k + 1) = [] := by
  rw [iterWeeksAfter, h]

theorem iterWeeksAfter_at (styler : Int → Nat) (k : Nat) (m : Nat) (hm : m ≤ NIdx) :
    iterWeeksAfter styler (weekAt styler m) k =
      (List.range (min k (NIdx - m))).map (fun j => weekAt styler (m + 1 + j)) := by
  induction k generalizing m with
  | zero => simp [iterWeeksAfter]
  | succ k ih =>
    by_cases hmN : m < NIdx
    · have hstep : week_after styler (weekAt styler m) = some (weekAt styler (m + 1)) := by
        rw [week_after_at styler m hm, if_pos hmN]
      rw [iterWeeksAfter_succ_pos styler _ _ k hstep, ih (m + 1) (by omega)]
      have h1 : min (k + 1) (NIdx - m) = min k (NIdx - (m + 1)) + 1 := by omega
      rw [h1, List.range_succ_eq_map, List.map_cons, List.map_map]
      have h2 : ((fun j => weekAt styler (m + 1 + j)) ∘ Nat.succ) =
          fun j => weekAt styler (m + 1 + 1 + j) := by
        funext j
        show weekAt styler (m + 1 + (j + 1)) = weekAt styler (m + 1 + 1 + j)
        congr 1
        omega
      rw [h2]
    · have hstep : week_after styler (weekAt styler m) = none := by
        rw [week_after_at styler m hm, if_neg hmN]
      rw [iterWeeksAfter_succ_neg styler _ k hstep]
      have h0 : NIdx - m = 0 := by omega
      simp [h0]

theorem iterWeeksBefore_at (styler : Int → Nat) (k : Nat) (m : Nat) (hm : m ≤ NIdx) :
    iterWeeksBefore styler (weekAt styler m) k =
      (List.range (min k m)).map (fun j => weekAt styler (m - 1 - j)) := by
  induction k generalizing m with
  | zero => simp [iterWeeksBefore]
  | succ k ih =>
    by_cases hm1 : 1 ≤ m
    · have hstep : week_before styler (weekAt styler m) = some (weekAt styler (m - 1)) := by
        rw [week_before_at styler m hm, if_pos hm1]
      rw [iterWeeksBefore_succ_pos styler _ _ k hstep, ih (m - 1) (by omega)]
      have h1 : min (k + 1) m = min k (m - 1) + 1 := by omega
      rw [h1, List.range_succ_eq_map, List.map_cons, List.map_map]
      have h2 : ((fun j => weekAt styler (m - 1 - j)) ∘ Nat.succ) =
          fun j => weekAt styler (m - 1 - 1 - j) := by
        funext j
        show weekAt styler (m - 1 - (j + 1)) = weekAt styler (m - 1 - 1 - j)
        congr 1
        omega
      rw [h2]
      norm_num
    · have hstep : week_before styler (weekAt styler m) = none := by
        rw [week_before_at styler m hm, if_neg hm1]
      rw [iterWeeksBefore_succ_neg styler _ k hstep]
      have h0 : m = 0 := by omega
      simp [h0]

theorem foldl_cons_eq (l acc : List Week) :
    l.foldl (fun acc w => w :: acc) acc = l.reverse ++ acc := by
  induction l generalizing acc with
  | nil => simp
  | cons x t ih => simp [List.foldl_cons, ih]

theorem runAt_length (styler : Int → Nat) (a n : Nat) : (runAt styler a n).length = n := by
  simp [runAt]

theorem runAt_append (styler : Int → Nat) (a b c : Nat) :
    runAt styler a b ++ runAt styler (a + b) c = runAt styler a (b + c) := by
  unfold runAt
  rw [List.range_add b c, List.map_append, List.map_map]
  have hf : ((fun j => weekAt styler (a + j)) ∘ fun x => b + x) =
      fun j => weekAt styler (a + b + j) := by
    funext j
    show weekAt styler (a + (b + j)) = weekAt styler (a + b + j)
    congr 1
    omega
  rw [hf]

theorem runAt_succ_head (styler : Int → Nat) (a n : Nat) :
    runAt styler a (n + 1) = weekAt styler a :: runAt styler (a + 1) n := by
  unfold runAt
  rw [List.range_succ_eq_map, List.map_cons, List.map_map]
  have hf : ((fun j => weekAt styler (a + j)) ∘ Nat.succ) =
      fun j => weekAt styler (a + 1 + j) := by
    funext j
    show weekAt styler (a + (j + 1)) = weekAt styler (a + 1 + j)
    congr 1
    omega
  rw [hf]
  have h0 : a + 0 = a := rfl
  rw [h0]

theorem runAt_concat (styler : Int → Nat) (a n : Nat) :
    runAt styler a (n + 1) = runAt styler a n ++ [weekAt styler (a + n)] := by
  unfold runAt
  rw [List.range_succ, List.map_append]
  rfl

theorem runAt_headD (styler : Int → Nat) (a n : Nat) (hn : 1 ≤ n) (x : Week) :
    (runAt styler a n).headD x = weekAt styler a := by
  obtain ⟨p, rfl⟩ : ∃ p, n = p + 1 := ⟨n - 1, by omega⟩
  rw [runAt_succ_head]
  rfl

theorem runAt_getLastD (styler : Int → Nat) (a n : Nat) (hn : 1 ≤ n) (x : Week) :
    (runAt styler a n).getLastD x = weekAt styler (a + (n - 1)) := by
  obtain ⟨p, rfl⟩ : ∃ p, n = p + 1 := ⟨n - 1, by omega⟩
  rw [runAt_concat]
  simp

theorem runAt_dropLast (styler : Int → Nat) (a n : Nat) :
    (runAt styler a (n + 1)).dropLast = runAt styler a n := by
  rw [runAt_concat]
  exact List.dropLast_concat ..

theorem runAt_drop (styler : Int → Nat) (a n p : Nat) (hp : p ≤ n) :
    (runAt styler a n).drop p = runAt styler (a + p) (n - p) := by
  have h : runAt styler a n = runAt styler a p ++ runAt styler (a + p) (n - p) := by
    rw [runAt_append]
    congr 1
    omega
  rw [h]
  exact List.drop_left' (runAt_length styler a p)

theorem runAt_take (styler : Int → Nat) (a n p : Nat) (hp : p ≤ n) :
    (runAt styler a n).take p = runAt styler a p := by
  have h : runAt styler a n = runAt styler a p ++ runAt styler (a + p) (n - p) := by
    rw [runAt_append]
    congr 1
    omega
  rw [h]
  exact List.take_left' (runAt_length styler a p)

theorem reverse_desc_map (styler : Int → Nat) (m n : Nat) (hn : n ≤ m) :
    ((List.range n).map (fun j => weekAt styler (m - 1 - j))).reverse = runAt styler (m - n) n := by
  induction n with
  | zero => simp [runAt]
  | succ n ih =>
    rw [List.range_succ, List.map_append, List.reverse_append]
    simp only [List.map_cons, List.map_nil, List.reverse_cons, List.reverse_nil, List.nil_append,
      List.singleton_append]
    rw [ih (by omega)]
    have h1 : runAt styler (m - (n + 1)) (n + 1) =
        weekAt styler (m - (n + 1)) :: runAt styler (m - (n + 1) + 1) n := runAt_succ_head ..
    rw [h1]
    have h2 : m - 1 - n = m - (n + 1) := by omega
    have h3 : m - n = m - (n + 1) + 1 := by omega
    rw [h2, h3]

theorem weeksAfter_at (styler : Int → Nat) (m : Nat) (hm : m ≤ NIdx) (q : Nat) (hq : 1 ≤ q) :
    weeksAfter styler (weekAt styler m) q =
      if m = NIdx then none else some (runAt styler (m + 1) (min q (NIdx - m))) := by
  unfold weeksAfter
  rw [iterWeeksAfter_at styler q m hm]
  by_cases hmN : m = NIdx
  · rw [if_pos hmN]
    have h0 : NIdx - m = 0 := by omega
    simp [h0]
  · have hne : ¬((List.range (min q (NIdx - m))).map (fun j => weekAt styler (m + 1 + j)) = []) := by
      intro hcon
      have hlen := congrArg List.length hcon
      simp at hlen
      omega
    rw [if_neg hne, if_neg hmN]
    rfl

theorem weeksBefore_at (styler : Int → Nat) (m : Nat) (hm : m ≤ NIdx) (q : Nat) (hq : 1 ≤ q) :
    weeksBefore styler (weekAt styler m) q =
      if m = 0 then none else some (runAt styler (m - min q m) (min q m)) := by
  unfold weeksBefore
  rw [iterWeeksBefore_at styler q m hm]
  by_cases hm0 : m = 0
  · rw [if_pos hm0]
    have h0 : min q m = 0 := by omega
    simp [h0]
  · have hne : ¬((List.range (min q m)).map (fun j => weekAt styler (m - 1 - j)) = []) := by
      intro hcon
      have hlen := congrArg List.length hcon
      simp at hlen
      omega
    rw [if_neg hne, if_neg hm0, reverse_desc_map styler m (min q m) (by omega)]

/-- Number of weeks `around_date` collects before the start week in its first
pass (`(week_qty - 1) / 2`, clipped by the minimum date). -/
def adB (q m : Nat) : Nat := min ((q - 1) / 2) m

/-- Number of weeks `around_date` collects after the start week (the remaining
`unfilled` capacity, clipped by the maximum date). -/
def adA (q m : Nat) : Nat := min (q - (adB q m + 1)) (NIdx - m)

/-- Number of weeks `around_date` prepends in its final past-ward boundary
fill. -/
def adB2 (q m : Nat) : Nat := min (q - (adB q m + 1 + adA q m)) (m - adB q m)

/-- Structure of `around_date`: a contiguous run of canonical weeks. -/
theorem around_date_at (styler : Int → Nat) (d : Int) (m : Nat) (h1 : minDay ≤ d)
    (h2 : d ≤ maxDay) (hm : m ≤ NIdx) (hsd : sundayOf d = sun m) (q : Nat) :
    around_date styler d q =
      runAt styler (m - adB q m - adB2 q m) (adB2 q m + (adB q m + 1 + adA q m)) := by
  have hmake : make styler d = weekAt styler m := by
    rw [make_eq styler d h1 h2, hsd]
    rfl
  simp only [around_date]
  rw [hmake]
  rw [iterWeeksBefore_at styler ((q - 1) / 2) m hm]
  rw [foldl_cons_eq, reverse_desc_map styler m (min ((q - 1) / 2) m) (by omega)]
  have hadB : min ((q - 1) / 2) m = adB q m := rfl
  rw [hadB]
  have hsingle : [weekAt styler m] = runAt styler (m - adB q m + adB q m) 1 := by
    unfold runAt
    have : List.range 1 = [0] := rfl
    rw [this, List.map_cons, List.map_nil]
    have : m - adB q m + adB q m + 0 = m := by have := Nat.min_le_right ((q - 1) / 2) m; unfold adB; omega
    rw [this]
  rw [hsingle, runAt_append, runAt_length]
  rw [iterWeeksAfter_at styler (q - (adB q m + 1)) m hm]
  have hadA : (List.range (min (q - (adB q m + 1)) (NIdx - m))).map
      (fun j => weekAt styler (m + 1 + j)) = runAt styler (m + 1) (adA q m) := rfl
  rw [hadA]
  have hstep : runAt styler (m - adB q m) (adB q m + 1) ++ runAt styler (m + 1) (adA q m) =
      runAt styler (m - adB q m) (adB q m + 1 + adA q m) := by
    have he : m + 1 = m - adB q m + (adB q m + 1) := by
      have := Nat.min_le_right ((q - 1) / 2) m; unfold adB; omega
    rw [he, runAt_append]
  rw [hstep, runAt_length]
  by_cases hu : 0 < q - (adB q m + 1 + adA q m)
  · rw [if_pos hu]
    rw [runAt_headD styler _ _ (by omega) _]
    rw [iterWeeksBefore_at styler _ (m - adB q m) (by omega)]
    rw [foldl_cons_eq, reverse_desc_map styler (m - adB q m) _ (by omega)]
    have hadB2 : min (q - (adB q m + 1 + adA q m)) (m - adB q m) = adB2 q m := rfl
    rw [hadB2]
    have happ := runAt_append styler (m - adB q m - adB2 q m) (adB2 q m) (adB q m + 1 + adA q m)
    have he2 : m - adB q m - adB2 q m + adB2 q m = m - adB q m := by
      have := Nat.min_le_right (q - (adB q m + 1 + adA q m)) (m - adB q m)
      unfold adB2 at *
      omega
    rw [he2] at happ
    rw [happ]
  · rw [if_neg hu]
    have h0 : adB2 q m = 0 := by
      unfold adB2
      omega
    rw [h0]
    congr 1
    omega

theorem runAt_getElem? (styler : Int → Nat) (a n j : Nat) (hj : j < n) :
    (runAt styler a n)[j]? = some (weekAt styler (a + j)) := by
  unfold runAt
  rw [List.getElem?_map, List.getElem?_range hj]
  rfl

theorem ad_total (q m : Nat) (hm : m ≤ NIdx) (hq : 1 ≤ q) :
    adB2 q m + (adB q m + 1 + adA q m) = min q (NIdx + 1) := by
  unfold adB2 adA adB
  omega

theorem ad_center (q m : Nat) (hB : (q - 1) / 2 ≤ m) (hA : q - 1 - (q - 1) / 2 ≤ NIdx - m)
    (hm : m ≤ NIdx) (hq : 1 ≤ q) :
    adB q m = (q - 1) / 2 ∧ adA q m = q - 1 - (q - 1) / 2 ∧ adB2 q m = 0 := by
  unfold adB2 adA adB
  omega

theorem one_week_forwards_run (styler : Int → Nat) (tdy std : Int) (i n : Nat)
    (hn : 1 ≤ n) (hiN : i + n - 1 ≤ NIdx) :
    one_week_forwards styler ⟨tdy, std, some (runAt styler i n)⟩ =
      if i + n - 1 < NIdx then
        ((⟨tdy, std, some (runAt styler (i + 1) n)⟩ : WeekWindow), true)
      else ((⟨tdy, std, some (runAt styler i n)⟩ : WeekWindow), false) := by
  have hlast : (runAt styler i n).getLastD [] = weekAt styler (i + (n - 1)) :=
    runAt_getLastD styler i n hn []
  have hm' : i + (n - 1) ≤ NIdx := by omega
  by_cases hlt : i + n - 1 < NIdx
  · have hafter : week_after styler ((runAt styler i n).getLastD []) =
        some (weekAt styler (i + (n - 1) + 1)) := by
      rw [hlast, week_after_at styler _ hm', if_pos (by omega)]
    simp only [one_week_forwards, hafter]
    rw [if_pos hlt]
    have he : i + (n - 1) + 1 = i + n := by omega
    rw [he, ← runAt_concat styler i n, runAt_drop styler i (n + 1) 1 (by omega),
      Nat.add_sub_cancel]
  · have hafter : week_after styler ((runAt styler i n).getLastD []) = none := by
      rw [hlast, week_after_at styler _ hm', if_neg (by omega)]
    simp only [one_week_forwards, hafter]
    rw [if_neg hlt]

theorem one_week_backwards_run (styler : Int → Nat) (tdy std : Int) (i n : Nat)
    (hn : 1 ≤ n) (hiN : i ≤ NIdx) :
    one_week_backwards styler ⟨tdy, std, some (runAt styler i n)⟩ =
      if 1 ≤ i then
        ((⟨tdy, std, some (runAt styler (i - 1) n)⟩ : WeekWindow), true)
      else ((⟨tdy, std, some (runAt styler i n)⟩ : WeekWindow), false) := by
  have hhead : (runAt styler i n).headD [] = weekAt styler i := runAt_headD styler i n hn []
  by_cases hi : 1 ≤ i
  · have hbefore : week_before styler ((runAt styler i n).headD []) =
        some (weekAt styler (i - 1)) := by
      rw [hhead, week_before_at styler i hiN, if_pos hi]
    simp only [one_week_backwards, hbefore]
    rw [if_pos hi]
    have hcons : weekAt styler (i - 1) :: runAt styler i n = runAt styler (i - 1) (n + 1) := by
      have he : i - 1 + 1 = i := by omega
      rw [runAt_succ_head, he]
    rw [hcons, runAt_dropLast]
  · have hbefore : week_before styler ((runAt styler i n).headD []) = none := by
      rw [hhead, week_before_at styler i hiN, if_neg hi]
    simp only [one_week_backwards, hbefore]
    rw [if_neg hi]

theorem one_page_forwards_run (styler : Int → Nat) (tdy std : Int) (i n : Nat)
    (hn : 1 ≤ n) (hiN : i + n - 1 ≤ NIdx) :
    one_page_forwards styler ⟨tdy, std, some (runAt styler i n)⟩ =
      if i + n - 1 < NIdx then
        ((⟨tdy, std,
          some (runAt styler (i + min n (NIdx - (i + n - 1))) n)⟩ : WeekWindow), true)
      else ((⟨tdy, std, some (runAt styler i n)⟩ : WeekWindow), false) := by
  have hlast : (runAt styler i n).getLastD [] = weekAt styler (i + (n - 1)) :=
    runAt_getLastD styler i n hn []
  have hm' : i + (n - 1) ≤ NIdx := by omega
  by_cases hlt : i + n - 1 < NIdx
  · have hafter : weeksAfter styler ((runAt styler i n).getLastD []) (runAt styler i n).length =
        some (runAt styler (i + (n - 1) + 1) (min n (NIdx - (i + (n - 1))))) := by
      rw [hlast, runAt_length, weeksAfter_at styler _ hm' n hn, if_neg (by omega)]
    simp only [one_page_forwards, hafter]
    rw [if_pos hlt]
    rw [runAt_length, runAt_length]
    have he1 : i + (n - 1) + 1 = i + n := by omega
    have he2 : NIdx - (i + (n - 1)) = NIdx - (i + n - 1) := by omega
    rw [he1, he2]
    by_cases hp : min n (NIdx - (i + n - 1)) = n
    · rw [if_pos hp, hp]
    · rw [if_neg hp]
      have hple : min n (NIdx - (i + n - 1)) ≤ n := Nat.min_le_left ..
      rw [runAt_drop styler i n _ hple]
      have happ := runAt_append styler (i + min n (NIdx - (i + n - 1)))
        (n - min n (NIdx - (i + n - 1))) (min n (NIdx - (i + n - 1)))
      have he3 : i + min n (NIdx - (i + n - 1)) + (n - min n (NIdx - (i + n - 1))) = i + n := by
        omega
      have he4 : n - min n (NIdx - (i + n - 1)) + min n (NIdx - (i + n - 1)) = n := by
        omega
      rw [he3, he4] at happ
      rw [happ]
  · have hafter : weeksAfter styler ((runAt styler i n).getLastD []) (runAt styler i n).length =
        none := by
      rw [hlast, runAt_length, weeksAfter_at styler _ hm' n hn, if_pos (by omega)]
    simp only [one_page_forwards, hafter]
    rw [if_neg hlt]

theorem one_page_backwards_run (styler : Int → Nat) (tdy std : Int) (i n : Nat)
    (hn : 1 ≤ n) (hiN : i ≤ NIdx) :
    one_page_backwards styler ⟨tdy, std, some (runAt styler i n)⟩ =
      if 1 ≤ i then
        ((⟨tdy, std, some (runAt styler (i - min n i) n)⟩ : WeekWindow), true)
      else ((⟨tdy, std, some (runAt styler i n)⟩ : WeekWindow), false) := by
  have hhead : (runAt styler i n).headD [] = weekAt styler i := runAt_headD styler i n hn []
  by_cases hi : 1 ≤ i
  · have hbefore : weeksBefore styler ((runAt styler i n).headD []) (runAt styler i n).length =
        some (runAt styler (i - min n i) (min n i)) := by
      rw [hhead, runAt_length, weeksBefore_at styler i hiN n hn, if_neg (by omega)]
    simp only [one_page_backwards, hbefore]
    rw [if_pos hi]
    rw [runAt_length, runAt_length]
    by_cases hp : min n i < n
    · rw [if_pos hp]
      rw [runAt_take styler i n _ (by omega)]
      have happ := runAt_append styler (i - min n i) (min n i) (n - min n i)
      have he1 : i - min n i + min n i = i := by omega
      have he2 : min n i + (n - min n i) = n := by omega
      rw [he1, he2] at happ
      rw [happ]
    · rw [if_neg hp]
      have hp' : min n i = n := by omega
      rw [hp']
  · have hbefore : weeksBefore styler ((runAt styler i n).headD []) (runAt styler i n).length =
        none := by
      rw [hhead, runAt_length, weeksBefore_at styler i hiN n hn, if_pos (by omega)]
    simp only [one_page_backwards, hbefore]
    rw [if_neg hi]

theorem one_week_forwards_fail (styler : Int → Nat) (ww : WeekWindow)
    (h : (one_week_forwards styler ww).2 = false) : (one_week_forwards styler ww).1 = ww := by
  cases hww : ww.weeks with
  | none =>
    simp only [one_week_forwards, hww] at h
    exact Bool.noConfusion h
  | some weeks =>
    cases hwa : week_after styler (weeks.getLastD []) with
    | some w =>
      simp only [one_week_forwards, hww, hwa] at h
      exact Bool.noConfusion h
    | none =>
      simp only [one_week_forwards, hww, hwa]

theorem one_week_backwards_fail (styler : Int → Nat) (ww : WeekWindow)
    (h : (one_week_backwards styler ww).2 = false) : (one_week_backwards styler ww).1 = ww := by
  cases hww : ww.weeks with
  | none =>
    simp only [one_week_backwards, hww] at h
    exact Bool.noConfusion h
  | some weeks =>
    cases hwb : week_before styler (weeks.headD []) with
    | some w =>
      simp only [one_week_backwards, hww, hwb] at h
      exact Bool.noConfusion h
    | none =>
      simp only [one_week_backwards, hww, hwb]

theorem one_page_forwards_fail (styler : Int → Nat) (ww : WeekWindow)
    (h : (one_page_forwards styler ww).2 = false) : (one_page_forwards styler ww).1 = ww := by
  cases hww : ww.weeks with
  | none =>
    simp only [one_page_forwards, hww] at h
    exact Bool.noConfusion h
  | some weeks =>
    cases hwa : weeksAfter styler (weeks.getLastD []) weeks.length with
    | some page =>
      by_cases hp : page.length = weeks.length
      · simp only [one_page_forwards, hww, hwa, if_pos hp] at h
        exact Bool.noConfusion h
      · simp only [one_page_forwards, hww, hwa, if_neg hp] at h
        exact Bool.noConfusion h
    | none =>
      simp only [one_page_forwards, hww, hwa]

theorem one_page_backwards_fail (styler : Int → Nat) (ww : WeekWindow)
    (h : (one_page_backwards styler ww).2 = false) : (one_page_backwards styler ww).1 = ww := by
  cases hww : ww.weeks with
  | none =>
    simp only [one_page_backwards, hww] at h
    exact Bool.noConfusion h
  | some weeks =>
    cases hwb : weeksBefore styler (weeks.headD []) weeks.length with
    | some page =>
      by_cases hp : page.length < weeks.length
      · simp only [one_page_backwards, hww, hwb, if_pos hp] at h
        exact Bool.noConfusion h
      · simp only [one_page_backwards, hww, hwb, if_neg hp] at h
        exact Bool.noConfusion h
    | none =>
      simp only [one_page_backwards, hww, hwb]

theorem jump_to_today_some (styler : Int → Nat) (tdy std : Int) (l : List Week) :
    jump_to_today styler ⟨tdy, std, some l⟩ =
      ⟨tdy, std, some (around_date styler tdy l.length)⟩ := by
  simp only [jump_to_today]

theorem jump_to_date_some (styler : Int → Nat) (tdy std dte : Int) (l : List Week) :
    jump_to_date styler ⟨tdy, std, some l⟩ dte =
      ⟨tdy, std, some (around_date styler dte l.length)⟩ := by
  simp only [jump_to_date]

theorem around_date_ne_nil (styler : Int → Nat) (d : Int) (q : Nat) :
    around_date styler d q ≠ [] := by
  simp only [around_date, foldl_cons_eq]
  split
  · simp only [ne_eq, List.append_eq_nil]
    tauto
  · simp only [ne_eq, List.append_eq_nil]
    tauto

/-- Validity of a `WeekWindow`: the source invariant that a materialized
buffer is never empty. -/
def goodWW (ww : WeekWindow) : Prop := ∀ l, ww.weeks = some l → l ≠ []

theorem ensure_weeks_good (styler : Int → Nat) (ww : WeekWindow) (q : Nat) (hq : 1 ≤ q)
    (hv : goodWW ww) :
    goodWW (ensure_weeks styler ww q) ∧ (ensure_weeks styler ww q).weeks ≠ none := by
  cases hww : ww.weeks with
  | none =>
    constructor
    · intro l hl
      simp only [ensure_weeks, hww] at hl
      injection hl with hl2
      subst hl2
      exact around_date_ne_nil styler ww.start_date q
    · simp only [ensure_weeks, hww]
      intro hcon
      exact Option.noConfusion hcon
  | some weeks =>
    have hne : weeks ≠ [] := hv weeks hww
    by_cases h1 : weeks.length < q
    · constructor
      · intro l hl
        simp only [ensure_weeks, hww, if_pos h1] at hl
        injection hl with hl2
        subst hl2
        split
        · split
          · rw [foldl_cons_eq]
            simp only [ne_eq, List.append_eq_nil]
            tauto
          · simp only [ne_eq, List.append_eq_nil]
            tauto
        · simp only [ne_eq, List.append_eq_nil]
          tauto
      · simp only [ensure_weeks, hww, if_pos h1]
        intro hcon
        exact Option.noConfusion hcon
    · by_cases h2 : q < weeks.length
      · constructor
        · intro l hl
          simp only [ensure_weeks, hww, if_neg h1, if_pos h2] at hl
          injection hl with hl2
          subst hl2
          intro hcon
          have hlen := congrArg List.length hcon
          rw [List.length_take] at hlen
          have hlp : 0 < weeks.length := List.length_pos.2 hne
          simp only [List.length_nil] at hlen
          omega
        · simp only [ensure_weeks, hww, if_neg h1, if_pos h2]
          intro hcon
          exact Option.noConfusion hcon
      · constructor
        · intro l hl
          simp only [ensure_weeks, hww, if_neg h1, if_neg h2] at hl
          injection hl with hl2
          exact hl2 ▸ hne
        · simp only [ensure_weeks, hww, if_neg h1, if_neg h2]
          intro hcon
          exact Option.noConfusion hcon

/-- Shared consequences of `around_date_at`: length and centering. -/
theorem around_props (styler : Int → Nat) (q : Nat) (d : Int) (hq : 1 ≤ q)
    (h1 : minDay ≤ d) (h2 : d ≤ maxDay) :
    (around_date styler d q).length = min q (NIdx + 1) ∧
    ((q - 1) / 2 ≤ sundayIndex d → q - 1 - (q - 1) / 2 ≤ NIdx - sundayIndex d →
      (around_date styler d q)[(q - 1) / 2]? = some (make styler d)) ∧
    ∃ a b, around_date styler d q = runAt styler a b := by
  obtain ⟨hmle, hsd⟩ := sundayIndex_spec d h1 h2
  have h := around_date_at styler d (sundayIndex d) h1 h2 hmle hsd q
  refine ⟨?_, ?_, ?_⟩
  · rw [h, runAt_length, ad_total q (sundayIndex d) hmle hq]
  · intro hB hA
    obtain ⟨e1, e2, e3⟩ := ad_center q (sundayIndex d) hB hA hmle hq
    rw [h, e1, e2, e3]
    rw [runAt_getElem? styler _ _ ((q - 1) / 2) (by omega)]
    have he : sundayIndex d - (q - 1) / 2 - 0 + (q - 1) / 2 = sundayIndex d := by omega
    rw [he]
    have hmk : make styler d = weekAt styler (sundayIndex d) := by
      rw [make_eq styler d h1 h2, hsd]
      rfl
    rw [hmk]
  · exact ⟨_, _, h⟩

/-- C2: for every `count ≥ 1` and representable date `d`, `around_date(d, count)`
is a contiguous run of consecutive weeks whose length is exactly `count`
unless the entire representable range is shorter than `count` weeks (in which
case it is the whole range, `NIdx + 1` weeks); and when there is room on both
sides of `d`'s week, the week containing `d` sits at index `(count - 1) / 2`
from the front and the length is exactly `count`. -/
theorem C2_around_date (styler : Int → Nat) (q : Nat) (d : Int) (hq : 1 ≤ q)
    (h1 : minDay ≤ d) (h2 : d ≤ maxDay) :
    (∃ a b, around_date styler d q = runAt styler a b) ∧
    (around_date styler d q).length = min q (NIdx + 1) ∧
    (q ≤ NIdx + 1 → (around_date styler d q).length = q) ∧
    ((q - 1) / 2 ≤ sundayIndex d → q - 1 - (q - 1) / 2 ≤ NIdx - sundayIndex d →
      (around_date styler d q)[(q - 1) / 2]? = some (make styler d) ∧
      (around_date styler d q).length = q) := by
  obtain ⟨hlen, hcen, hrun⟩ := around_props styler q d hq h1 h2
  refine ⟨hrun, hlen, ?_, ?_⟩
  · intro hle
    rw [hlen]
    omega
  · intro hB hA
    refine ⟨hcen hB hA, ?_⟩
    rw [hlen]
    have := sundayIndex_spec d h1 h2
    omega

/-- C2 witness: a 5-week window around 2025-01-22. -/
theorem C2_around_date_witness :
    (∃ a b, around_date (fun _ => 0) (daysFromCivil 2025 1 22) 5 = runAt (fun _ => 0) a b) ∧
    (around_date (fun _ => 0) (daysFromCivil 2025 1 22) 5).length = min 5 (NIdx + 1) ∧
    (5 ≤ NIdx + 1 → (around_date (fun _ => 0) (daysFromCivil 2025 1 22) 5).length = 5) ∧
    ((5 - 1) / 2 ≤ sundayIndex (daysFromCivil 2025 1 22) →
      5 - 1 - (5 - 1) / 2 ≤ NIdx - sundayIndex (daysFromCivil 2025 1 22) →
      (around_date (fun _ => 0) (daysFromCivil 2025 1 22) 5)[(5 - 1) / 2]? =
        some (make (fun _ => 0) (daysFromCivil 2025 1 22)) ∧
      (around_date (fun _ => 0) (daysFromCivil 2025 1 22) 5).length = 5) :=
  C2_around_date (fun _ => 0) 5 (daysFromCivil 2025 1 22) (by decide) (by decide) (by decide)

/-- C3: paging characterization.  With the buffer a run of `n ≥ 1` weeks
starting at index `i`, `one_page_forwards` fails exactly when no week after
the last week exists; on success the buffer becomes the old trailing weeks
followed by the `weeks_after` run (the run alone when it is full length, with
no overlap), always of length `n`, still contiguous; `one_page_backwards` is
symmetric with `weeks_before` and the leading old weeks. -/
theorem C3_one_page (styler : Int → Nat) (tdy std : Int) (i n : Nat)
    (hn : 1 ≤ n) (hiN : i + n - 1 ≤ NIdx) :
    (((one_page_forwards styler ⟨tdy, std, some (runAt styler i n)⟩).2 = false) ↔
      i + n - 1 = NIdx) ∧
    (i + n - 1 = NIdx →
      one_page_forwards styler ⟨tdy, std, some (runAt styler i n)⟩ =
        (⟨tdy, std, some (runAt styler i n)⟩, false)) ∧
    (i + n - 1 < NIdx →
      one_page_forwards styler ⟨tdy, std, some (runAt styler i n)⟩ =
        (⟨tdy, std, some (runAt styler (i + min n (NIdx - (i + n - 1))) n)⟩, true) ∧
      runAt styler (i + min n (NIdx - (i + n - 1))) n =
        (runAt styler i n).drop (min n (NIdx - (i + n - 1))) ++
          runAt styler (i + n) (min n (NIdx - (i + n - 1))) ∧
      (n ≤ NIdx - (i + n - 1) →
        one_page_forwards styler ⟨tdy, std, some (runAt styler i n)⟩ =
          (⟨tdy, std, some (runAt styler (i + n) n)⟩, true))) ∧
    (((one_page_backwards styler ⟨tdy, std, some (runAt styler i n)⟩).2 = false) ↔ i = 0) ∧
    (i = 0 →
      one_page_backwards styler ⟨tdy, std, some (runAt styler i n)⟩ =
        (⟨tdy, std, some (runAt styler i n)⟩, false)) ∧
    (1 ≤ i →
      one_page_backwards styler ⟨tdy, std, some (runAt styler i n)⟩ =
        (⟨tdy, std, some (runAt styler (i - min n i) n)⟩, true) ∧
      runAt styler (i - min n i) n =
        runAt styler (i - min n i) (min n i) ++ (runAt styler i n).take (n - min n i) ∧
      (n ≤ i →
        one_page_backwards styler ⟨tdy, std, some (runAt styler i n)⟩ =
          (⟨tdy, std, some (runAt styler (i - n) n)⟩, true))) := by
  have hf := one_page_forwards_run styler tdy std i n hn hiN
  have hb := one_page_backwards_run styler tdy std i n hn (by omega)
  refine ⟨?_, ?_, ?_, ?_, ?_, ?_⟩
  · constructor
    · intro hfail
      by_contra hne
      rw [if_pos (by omega)] at hf
      rw [hf] at hfail
      exact Bool.noConfusion hfail
    · intro heq
      rw [if_neg (by omega)] at hf
      rw [hf]
  · intro heq
    rw [if_neg (by omega)] at hf
    exact hf
  · intro hlt
    rw [if_pos hlt] at hf
    refine ⟨hf, ?_, ?_⟩
    · have hple : min n (NIdx - (i + n - 1)) ≤ n := Nat.min_le_left ..
      rw [runAt_drop styler i n _ hple]
      have happ := runAt_append styler (i + min n (NIdx - (i + n - 1)))
        (n - min n (NIdx - (i + n - 1))) (min n (NIdx - (i + n - 1)))
      have he3 : i + min n (NIdx - (i + n - 1)) + (n - min n (NIdx - (i + n - 1))) = i + n := by
        omega
      have he4 : n - min n (NIdx - (i + n - 1)) + min n (NIdx - (i + n - 1)) = n := by
        omega
      rw [he3, he4] at happ
      rw [happ]
    · intro hroom
      rw [hf]
      have he : min n (NIdx - (i + n - 1)) = n := by omega
      rw [he]
  · constructor
    · intro hfail
      by_contra hne
      rw [if_pos (by omega)] at hb
      rw [hb] at hfail
      exact Bool.noConfusion hfail
    · intro heq
      rw [if_neg (by omega)] at hb
      rw [hb]
  · intro heq
    rw [if_neg (by omega)] at hb
    exact hb
  · intro hge
    rw [if_pos hge] at hb
    refine ⟨hb, ?_, ?_⟩
    · have hple : n - min n i ≤ n := by omega
      rw [runAt_take styler i n _ hple]
      have happ := runAt_append styler (i - min n i) (min n i) (n - min n i)
      have he1 : i - min n i + min n i = i := by omega
      have he2 : min n i + (n - min n i) = n := by omega
      rw [he1, he2] at happ
      rw [happ]
    · intro hroom
      rw [hb]
      have he : min n i = n := by omega
      rw [he]

/-- C3 witness: a 3-week window in the middle of the range pages forward to a
disjoint full page. -/
theorem C3_one_page_witness :
    one_page_forwards (fun _ => 0) ⟨0, 0, some (runAt (fun _ => 0) 500000 3)⟩ =
      ((⟨0, 0, some (runAt (fun _ => 0) (500000 + 3) 3)⟩ : WeekWindow), true) := by
  have h := C3_one_page (fun _ => 0) 0 0 500000 3 (by decide) (by decide)
  have h3 := (h.2.2.1 (by decide)).2.2 (by decide)
  exact h3

/-- C5 counterexample: at `Date::MIN` (a Monday) the produced week has an
empty Sunday slot, so it does not hold `d` minus `d`'s weekday offset and the
week does not consist of 7 days. -/
theorem C5_counterexample :
    Week.get (make (fun _ => 0) minDay) 0 = none ∧
    ¬(Week.get (make (fun _ => 0) minDay) 0 =
      some (styleDate (fun _ => 0) (minDay - (weekday0 minDay : Int)))) := by
  decide

/-- C5 (amended): for every date `d` whose Sunday-to-Saturday week lies
entirely inside the representable range, `make` produces the full week: slot
`k` holds exactly day `sundayOf d + k` (so the Sunday slot is `d` minus `d`'s
zero-based weekday offset and the 7 entries are the 7 consecutive days,
sorted by weekday, no gaps, no duplicates). -/
theorem C5_make_full (styler : Int → Nat) (d : Int) (h1 : minDay ≤ sundayOf d)
    (h2 : sundayOf d + 6 ≤ maxDay) :
    make styler d =
      (List.range 7).map (fun (k : Nat) => some (styleDate styler (sundayOf d + (k : Int)))) := by
  have hw := weekday0_lt d
  have hds : sundayOf d = d - weekday0 d := rfl
  rw [make_eq styler d (by omega) (by omega)]
  unfold weekOf
  apply List.map_congr_left
  intro k hk
  rw [List.mem_range] at hk
  rw [if_pos ⟨by omega, by omega⟩]

/-- C5 witness: the full week around 2023-11-16, matching test_make. -/
theorem C5_make_full_witness :
    make (fun _ => 0) (daysFromCivil 2023 11 16) =
      (List.range 7).map (fun (k : Nat) =>
        some (styleDate (fun _ => 0) (sundayOf (daysFromCivil 2023 11 16) + (k : Int)))) :=
  C5_make_full (fun _ => 0) (daysFromCivil 2023 11 16) (by decide) (by decide)

/-- C6: whenever a one-week or one-page scroll returns the out-of-range error,
the whole `WeekWindow` (today, start date and buffer) is exactly as before,
and repeating the failing backward operation any number of times keeps
returning the error and never mutates the window. -/
theorem C6_failed_scroll_no_mutation (styler : Int → Nat) (ww : WeekWindow) :
    ((one_week_forwards styler ww).2 = false → (one_week_forwards styler ww).1 = ww) ∧
    ((one_week_backwards styler ww).2 = false → (one_week_backwards styler ww).1 = ww) ∧
    ((one_page_forwards styler ww).2 = false → (one_page_forwards styler ww).1 = ww) ∧
    ((one_page_backwards styler ww).2 = false → (one_page_backwards styler ww).1 = ww) ∧
    ((one_week_backwards styler ww).2 = false → ∀ k : Nat,
      (fun w => (one_week_backwards styler w).1)^[k] ww = ww) ∧
    ((one_page_backwards styler ww).2 = false → ∀ k : Nat,
      (fun w => (one_page_backwards styler w).1)^[k] ww = ww) := by
  refine ⟨one_week_forwards_fail styler ww, one_week_backwards_fail styler ww,
    one_page_forwards_fail styler ww, one_page_backwards_fail styler ww, ?_, ?_⟩
  · intro hfail k
    induction k with
    | zero => rfl
    | succ k ih =>
      rw [Function.iterate_succ_apply', ih]
      exact one_week_backwards_fail styler ww hfail
  · intro hfail k
    induction k with
    | zero => rfl
    | succ k ih =>
      rw [Function.iterate_succ_apply', ih]
      exact one_page_backwards_fail styler ww hfail

/-- C6 witness: a 3-week window touching the minimum date; scrolling backward
fails and leaves it unchanged, also after 5 repetitions. -/
theorem C6_failed_scroll_witness :
    (one_week_backwards (fun _ => 0) ⟨0, 0, some (runAt (fun _ => 0) 0 3)⟩).1 =
      ⟨0, 0, some (runAt (fun _ => 0) 0 3)⟩ ∧
    (fun w => (one_week_backwards (fun _ => 0) w).1)^[5]
      (⟨0, 0, some (runAt (fun _ => 0) 0 3)⟩ : WeekWindow) =
      ⟨0, 0, some (runAt (fun _ => 0) 0 3)⟩ := by
  have h := C6_failed_scroll_no_mutation (fun _ => 0) ⟨0, 0, some (runAt (fun _ => 0) 0 3)⟩
  have hfail : (one_week_backwards (fun _ => 0) ⟨0, 0, some (runAt (fun _ => 0) 0 3)⟩).2 =
      false := by decide
  exact ⟨h.2.1 hfail, h.2.2.2.2.1 hfail 5⟩

/-- C7: on a window not touching either boundary, `one_week_forwards` followed
by `one_week_backwards` succeeds twice and restores the original window
exactly. -/
theorem C7_week_roundtrip (styler : Int → Nat) (tdy std : Int) (i n : Nat)
    (hn : 1 ≤ n) (hi : 1 ≤ i) (hiN : i + n - 1 < NIdx) :
    (one_week_forwards styler ⟨tdy, std, some (runAt styler i n)⟩).2 = true ∧
    (one_week_backwards styler
      (one_week_forwards styler ⟨tdy, std, some (runAt styler i n)⟩).1).2 = true ∧
    (one_week_backwards styler
      (one_week_forwards styler ⟨tdy, std, some (runAt styler i n)⟩).1).1 =
      ⟨tdy, std, some (runAt styler i n)⟩ := by
  have hf := one_week_forwards_run styler tdy std i n hn (by omega)
  rw [if_pos hiN] at hf
  have hb := one_week_backwards_run styler tdy std (i + 1) n hn (by omega)
  rw [if_pos (by omega)] at hb
  rw [hf]
  have hsub : i + 1 - 1 = i := by omega
  rw [hsub] at hb
  exact ⟨rfl, by rw [hb], by rw [hb]⟩

/-- C7 witness. -/
theorem C7_week_roundtrip_witness :
    (one_week_forwards (fun _ => 0) ⟨0, 0, some (runAt (fun _ => 0) 1000 4)⟩).2 = true ∧
    (one_week_backwards (fun _ => 0)
      (one_week_forwards (fun _ => 0) ⟨0, 0, some (runAt (fun _ => 0) 1000 4)⟩).1).2 = true ∧
    (one_week_backwards (fun _ => 0)
      (one_week_forwards (fun _ => 0) ⟨0, 0, some (runAt (fun _ => 0) 1000 4)⟩).1).1 =
      ⟨0, 0, some (runAt (fun _ => 0) 1000 4)⟩ :=
  C7_week_roundtrip (fun _ => 0) 0 0 1000 4 (by decide) (by decide) (by decide)

/-- C9: on a materialized window of length `n`, `jump_to_today` rebuilds the
buffer as `around_date(today, n)` and `jump_to_date` as `around_date(date, n)`
for an arbitrary date, preserving the length `n` and recentering the
respective date's week at index `(n - 1) / 2` when both sides have room. -/
theorem C9_jump (styler : Int → Nat) (tdy std dte : Int) (l : List Week) (n : Nat)
    (hl : l.length = n) (hn : 1 ≤ n) (hnN : n ≤ NIdx + 1)
    (ht1 : minDay ≤ tdy) (ht2 : tdy ≤ maxDay) (hd1 : minDay ≤ dte) (hd2 : dte ≤ maxDay) :
    (jump_to_today styler ⟨tdy, std, some l⟩ =
      ⟨tdy, std, some (around_date styler tdy n)⟩) ∧
    (around_date styler tdy n).length = n ∧
    ((n - 1) / 2 ≤ sundayIndex tdy → n - 1 - (n - 1) / 2 ≤ NIdx - sundayIndex tdy →
      (around_date styler tdy n)[(n - 1) / 2]? = some (make styler tdy)) ∧
    (jump_to_date styler ⟨tdy, std, some l⟩ dte =
      ⟨tdy, std, some (around_date styler dte n)⟩) ∧
    (around_date styler dte n).length = n ∧
    ((n - 1) / 2 ≤ sundayIndex dte → n - 1 - (n - 1) / 2 ≤ NIdx - sundayIndex dte →
      (around_date styler dte n)[(n - 1) / 2]? = some (make styler dte)) := by
  obtain ⟨hlen1, hcen1, -⟩ := around_props styler n tdy hn ht1 ht2
  obtain ⟨hlen2, hcen2, -⟩ := around_props styler n dte hn hd1 hd2
  refine ⟨?_, ?_, hcen1, ?_, ?_, hcen2⟩
  · rw [jump_to_today_some, hl]
  · rw [hlen1]; omega
  · rw [jump_to_date_some, hl]
  · rw [hlen2]; omega

/-- C9 witness: jumping a 3-week window (buffer far from today) to 2025-01-22. -/
theorem C9_jump_witness :
    (jump_to_today (fun _ => 0) ⟨daysFromCivil 2025 1 22, 0, some (runAt (fun _ => 0) 9 3)⟩ =
      ⟨daysFromCivil 2025 1 22, 0,
        some (around_date (fun _ => 0) (daysFromCivil 2025 1 22) 3)⟩) ∧
    (around_date (fun _ => 0) (daysFromCivil 2025 1 22) 3).length = 3 := by
  have h := C9_jump (fun _ => 0) (daysFromCivil 2025 1 22) 0 (daysFromCivil 1999 12 31)
    (runAt (fun _ => 0) 9 3) 3 (runAt_length ..) (by decide) (by decide)
    (by decide) (by decide) (by decide) (by decide)
  exact ⟨h.1, h.2.1⟩

/-- Canonical Sunday of a week value: the date of its first populated slot
minus that slot's index (equal to the Sunday entry's date when present). -/
def canonSundayAux : List (Option StyledDate) → Int → Int
  | [], _ => 0
  | some sd :: _, i => sd.date - i
  | none :: t, i => canonSundayAux t (i + 1)

def canonSunday (w : Week) : Int := canonSundayAux w 0

/-- Buffer contiguity check: each entry's Sunday is exactly 7 days after the
previous entry's Sunday. -/
def contiguousB : List Week → Bool
  | [] => true
  | [_] => true
  | w1 :: w2 :: t => (canonSunday w2 == canonSunday w1 + 7) && contiguousB (w2 :: t)

/-- C1 (code bug): starting from `WeekWindow::new(Date::MAX)` and the operation
sequence `ensure_weeks(5); ensure_weeks(8)` — a resize of the terminal while
the window is pinned at the end of time — the buffer comes out with the three
backward-extension weeks in reversed order at the front, violating the
claimed contiguity invariant (each entry's Sunday 7 days after the previous
entry's Sunday), which the intermediate 5-week buffer still satisfied; the
length part of the invariant (8 weeks) does hold. -/
theorem C1_ensure_weeks_reversal :
    (ensure_weeks (fun _ => 0) (ensure_weeks (fun _ => 0) (WeekWindow.new maxDay) 5) 8).weeks =
      some ([weekAt (fun _ => 0) (NIdx - 5), weekAt (fun _ => 0) (NIdx - 6),
        weekAt (fun _ => 0) (NIdx - 7)] ++ runAt (fun _ => 0) (NIdx - 4) 5) ∧
    contiguousB (((ensure_weeks (fun _ => 0) (ensure_weeks (fun _ => 0)
      (WeekWindow.new maxDay) 5) 8).weeks).getD []) = false ∧
    contiguousB (((ensure_weeks (fun _ => 0) (WeekWindow.new maxDay) 5).weeks).getD []) = true ∧
    (((ensure_weeks (fun _ => 0) (ensure_weeks (fun _ => 0) (WeekWindow.new maxDay) 5)
      8).weeks).getD []).length = 8 := by
  decide

/-- C4 (code bug): resizing from 5 to 8 weeks while pinned at the maximum date
(`WeekWindow::new(Date::MAX - 3 days)`, `ensure_weeks(5)`, `ensure_weeks(8)`)
does grow backward only and keeps the last week fixed at the boundary, but it
inserts the three backward-extension weeks in reversed order, so the buffer is
not the backward extension `runAt (NIdx - 7) 8` that the claim describes. -/
theorem C4_ensure_weeks_resize :
    ¬((ensure_weeks (fun _ => 0) (ensure_weeks (fun _ => 0) (WeekWindow.new (maxDay - 3)) 5)
      8).weeks = some (runAt (fun _ => 0) (NIdx - 7) 8)) ∧
    (ensure_weeks (fun _ => 0) (ensure_weeks (fun _ => 0) (WeekWindow.new (maxDay - 3)) 5)
      8).weeks =
      some ([weekAt (fun _ => 0) (NIdx - 5), weekAt (fun _ => 0) (NIdx - 6),
        weekAt (fun _ => 0) (NIdx - 7)] ++ runAt (fun _ => 0) (NIdx - 4) 5) := by
  decide

/-- C8 (code bug): with all eight digit fields filled as 2025-03-15, Enter
commits a jump to 2025-03-03 — the committed day is rebuilt from the month
digits (`for d in self.month` at src/jumpto.rs lines 163-167) — and the
calendrically invalid entry 2025-02-31 is accepted as a jump to 2025-02-02
instead of being rejected as invalid input. -/
theorem C8_enter_day_from_month_digits :
    handle_input ⟨false, [some 2, some 0, some 2, some 5], [some 0, some 3],
        [some 1, some 5], 8⟩ .Enter =
      (⟨false, [some 2, some 0, some 2, some 5], [some 0, some 3], [some 1, some 5], 8⟩,
        .Jump (daysFromCivil 2025 3 3)) ∧
    ¬(daysFromCivil 2025 3 3 = daysFromCivil 2025 3 15) ∧
    handle_input ⟨false, [some 2, some 0, some 2, some 5], [some 0, some 2],
        [some 3, some 1], 8⟩ .Enter =
      (⟨false, [some 2, some 0, some 2, some 5], [some 0, some 2], [some 3, some 1], 8⟩,
        .Jump (daysFromCivil 2025 2 2)) := by
  decide

/-!
Renderer (src/calendar/widget.rs).  The ratatui collaborators (`Rect`,
`Buffer`, `Span::render`, `Layout`) are an external library (spec section 6:
"Terminal backend (collaborator, out of scope)"), embedded here by their
documented contracts: a `Rect` is a rectangle of cells; a buffer is a total
function from cells to characters-with-styles; `Span::render` writes the
span's characters on the target rectangle's first line, truncated to its
width; `Rect::intersection` is the saturating rectangle intersection; and the
`Layout::horizontal` split used by `Calendar::render` yields its middle
chunk, a sub-rectangle of the input area.
-/

structure Rect where
  x : Nat
  y : Nat
  width : Nat
  height : Nat
deriving DecidableEq

def Rect.right (r : Rect) : Nat := r.x + r.width

def Rect.bottom (r : Rect) : Nat := r.y + r.height

/-- `ratatui::layout::Rect::intersection` (saturating subtraction). -/
def Rect.intersection (a b : Rect) : Rect :=
  ⟨max a.x b.x, max a.y b.y, min a.right b.right - max a.x b.x,
    min a.bottom b.bottom - max a.y b.y⟩

/-- Membership of a cell position (column, row) in a rectangle. -/
def inRect (r : Rect) (p : Nat × Nat) : Prop :=
  r.x ≤ p.1 ∧ p.1 < r.x + r.width ∧ r.y ≤ p.2 ∧ p.2 < r.y + r.height

instance (r : Rect) (p : Nat × Nat) : Decidable (inRect r p) := by
  unfold inRect
  infer_instance

/-- One buffer cell: a character and a style. -/
structure Cell where
  ch : Char
  style : Nat
deriving DecidableEq

/-- The terminal cell grid, addressed by (column, row). -/
def Buf := (Nat × Nat) → Cell

/-- `ratatui::buffer::Cell::set_char` at one position (style preserved). -/
def setCh (buf : Buf) (p : Nat × Nat) (c : Char) : Buf :=
  fun q => if q = p then ⟨c, (buf p).style⟩ else buf q

def setCell (buf : Buf) (p : Nat × Nat) (c : Cell) : Buf :=
  fun q => if q = p then c else buf q

/-- Contract model of `ratatui::text::Span::render`: write the span's
characters on the rectangle's first line, truncated to the rectangle's width;
nothing is written when the rectangle has no height. -/
def renderSpan (r : Rect) (s : List Char) (st : Nat) (buf : Buf) : Buf :=
  if r.height = 0 then buf
  else (List.range (min s.length r.width)).foldl
    (fun b i => setCell b (r.x + i, r.y) ⟨s.getD i ' ', st⟩) buf

def HEADER : List Char := " Su     Mo     Tu     We     Th     Fr     Sa ".toList
def MAIN_WIDTH : Nat := 46
def LEFT_MARGIN : Nat := 6
def LONGEST_MONTH_NAME_LEN : Nat := 9
def MONTH_GUTTER : Nat := 2
def RIGHT_MARGIN : Nat := LONGEST_MONTH_NAME_LEN + MONTH_GUTTER
def TOTAL_WIDTH : Nat := LEFT_MARGIN + MAIN_WIDTH + RIGHT_MARGIN
def HEADER_LINES : Nat := 2
def WEEK_LINES : Nat := 2
def VBAR_OFFSET : Nat := 5
def DAY_WIDTH : Nat := 7
def ACS_HLINE : Char := '─'
def ACS_VLINE : Char := '│'
def ACS_TTEE : Char := '┬'
def ACS_ULCORNER : Char := '┌'
def ACS_LRCORNER : Char := '┘'

-- The three fixed styles of src/theme.rs used by the calendar widget,
-- embedded as distinct opaque style values.
def WEEKDAY_STYLE : Nat := 1
def YEAR_STYLE : Nat := 2
def MONTH_STYLE : Nat := 3

/-- `BufferCanvas::mvaddch`: guarded single-character write. -/
def mvaddch (area : Rect) (buf : Buf) (y x : Nat) (ch : Char) : Buf :=
  if y < area.height ∧ x < area.width then setCh buf (x + area.x, y + area.y) ch else buf

/-- `BufferCanvas::mvprint`: render a span into a one-line rectangle clipped
by intersection with the canvas area (`None` style defaulted to 0). -/
def mvprint (area : Rect) (buf : Buf) (y x : Nat) (s : List Char) (st : Nat) : Buf :=
  renderSpan (Rect.intersection ⟨x + area.x, y + area.y, area.width, 1⟩ area) s st buf

/-- `BufferCanvas::hline`. -/
def hline (area : Rect) (buf : Buf) (y x : Nat) (ch : Char) (len : Nat) : Buf :=
  mvprint area buf y x (List.replicate len ch) 0

def dateYear (n : Int) : Int := (civilFromDays n).1

def dateMonth (n : Int) : Int := (civilFromDays n).2.1

def dateDay (n : Int) : Int := (civilFromDays n).2.2

/-- `StyledDate::is_last_day_of_month`. -/
def isLastDayOfMonth (sd : StyledDate) : Bool :=
  match nextDay sd.date with
  | some tomorrow => dateMonth sd.date != dateMonth tomorrow
  | none => true

def digitChar (n : Nat) : Char := Char.ofNat (48 + n % 10)

/-- `format!("{:2}")` of a day of month (1..31): right-justified to width 2. -/
def natPad2 (d : Int) : List Char :=
  if d < 10 then [' ', digitChar d.toNat]
  else [digitChar ((d.toNat / 10) % 10), digitChar d.toNat]

/-- `StyledDate::show`: the 4-character day cell, bracketed when today. -/
def showDay (sd : StyledDate) (isToday : Bool) : List Char × Nat :=
  (if isToday then '[' :: natPad2 (dateDay sd.date) ++ [']']
   else ' ' :: natPad2 (dateDay sd.date) ++ [' '], sd.style)

/-- `Week::enumerate`: the populated slots, Sunday first, with their weekday
indices. -/
def enumerateWeek (w : Week) : List (Nat × StyledDate) :=
  w.enum.filterMap fun p => p.2.map fun sd => (p.1, sd)

/-- `Week::has_month_start`. -/
def hasMonthStart (w : Week) : Bool :=
  (w.filterMap id).any fun sd => dateDay sd.date == 1

/-- `Week::first_ym` (the `expect` on the Week invariant is modelled with a
junk default, unreachable for factory-produced weeks). -/
def firstYM (w : Week) : Int × Int :=
  match w.filterMap id with
  | [] => (0, 0)
  | sd :: _ => (dateYear sd.date, dateMonth sd.date)

/-- `Week::last_ym`. -/
def lastYM (w : Week) : Int × Int :=
  match (w.filterMap id).getLast? with
  | none => (0, 0)
  | some sd => (dateYear sd.date, dateMonth sd.date)

/-- `time::Month`'s `Display` names. -/
def monthName : Int → List Char
  | 1 => "January".toList
  | 2 => "February".toList
  | 3 => "March".toList
  | 4 => "April".toList
  | 5 => "May".toList
  | 6 => "June".toList
  | 7 => "July".toList
  | 8 => "August".toList
  | 9 => "September".toList
  | 10 => "October".toList
  | 11 => "November".toList
  | 12 => "December".toList
  | _ => []

def natChars (n : Nat) : List Char := Nat.toDigits 10 n

/-- `i32`'s `Display` (used for the year label). -/
def intChars (i : Int) : List Char :=
  if i < 0 then '-' :: natChars (-i).toNat else natChars i.toNat

/-- `BufferCanvas::draw_header`. -/
def draw_header (area : Rect) (buf : Buf) : Buf :=
  hline area (mvprint area buf 0 LEFT_MARGIN HEADER WEEKDAY_STYLE) 1 LEFT_MARGIN ACS_HLINE
    MAIN_WIDTH

/-- `BufferCanvas::draw_year`. -/
def draw_year (area : Rect) (buf : Buf) (week_no : Nat) (year : Int) : Buf :=
  mvprint area buf (week_no * WEEK_LINES + HEADER_LINES) 0 (intChars year) YEAR_STYLE

/-- `BufferCanvas::draw_month`. -/
def draw_month (area : Rect) (buf : Buf) (week_no : Nat) (month : Int) : Buf :=
  mvprint area buf (week_no * WEEK_LINES + HEADER_LINES)
    (LEFT_MARGIN + MAIN_WIDTH + MONTH_GUTTER) (monthName month) MONTH_STYLE

/-- `BufferCanvas::draw_day`. -/
def draw_day (area : Rect) (buf : Buf) (week_no : Nat) (wd : Nat) (s : List Char × Nat) : Buf :=
  mvprint area buf (week_no * WEEK_LINES + HEADER_LINES) (LEFT_MARGIN + DAY_WIDTH * wd) s.1 s.2

/-- `BufferCanvas::draw_month_border` (`checked_sub` modelled by the `≤`
guard). -/
def draw_month_border (area : Rect) (buf : Buf) (week_no : Nat) (wd : Nat) : Buf :=
  let y := week_no * WEEK_LINES + HEADER_LINES
  let offset := DAY_WIDTH * wd
  let bar_col := LEFT_MARGIN + offset + VBAR_OFFSET
  let buf :=
    if wd ≠ 6 then
      let buf := mvaddch area buf y bar_col ACS_VLINE
      let buf := mvaddch area buf (y - 1) bar_col
        (if week_no = 0 then ACS_TTEE else ACS_ULCORNER)
      let buf :=
        if 0 < week_no then
          if offset + VBAR_OFFSET + 1 ≤ MAIN_WIDTH then
            hline area buf (y - 1) (bar_col + 1) ACS_HLINE (MAIN_WIDTH - (offset + VBAR_OFFSET + 1))
          else buf
        else buf
      mvaddch area buf (y + 1) bar_col ACS_LRCORNER
    else buf
  hline area buf (y + 1) LEFT_MARGIN ACS_HLINE (offset + VBAR_OFFSET)

/-- `Calendar::weeks_for_lines`: `ceil((lines - HEADER_LINES) / 2)` coerced to
at least one week (`NonZeroUsize::MIN`). -/
def weeks_for_lines (lines : Nat) : Nat := max ((lines - HEADER_LINES + 1) / 2) 1

/-- Modelled from ratatui's
`Layout::horizontal([Length(left), Length(TOTAL_WIDTH.min(width)), Min(0)])`
split of `area` in `Calendar::render`: the middle chunk, a sub-rectangle of
`area` starting `left` columns in, its width clipped to the remaining
space. -/
def calChunk (area : Rect) : Rect :=
  let left := min (max ((area.width - MAIN_WIDTH) / 2) LEFT_MARGIN - LEFT_MARGIN) area.width
  ⟨area.x + left, area.y, min (min TOTAL_WIDTH area.width) (area.width - left), area.height⟩

/-- The body of the per-week loop in `Calendar::render`. -/
def renderWeekRow (area : Rect) (today : Int) (total : Nat) (buf : Buf) (i : Nat)
    (w : Week) : Buf :=
  let buf :=
    if hasMonthStart w then
      let buf := draw_month area buf i (lastYM w).2
      if (lastYM w).2 = 1 then
        if (firstYM w).2 = 1 then draw_year area buf i (firstYM w).1
        else if i + 1 < total then draw_year area buf (i + 1) (lastYM w).1
        else buf
      else buf
    else buf
  (enumerateWeek w).foldl (fun b p =>
    let b := draw_day area b i p.1 (showDay p.2 (p.2.date == today))
    if isLastDayOfMonth p.2 then draw_month_border area b i p.1
    else if p.2.date = minDay then
      if (p.1 + 6) % 7 ≠ 6 then draw_month_border area b i ((p.1 + 6) % 7)
      else if 0 < i then draw_month_border area b (i - 1) ((p.1 + 6) % 7)
      else b
    else b) buf

/-- `Calendar::render` (`StatefulWidget::render`): sizes the window via
`ensure_weeks` and draws the header, margin labels, day cells and month
borders; returns the mutated window and buffer.  The `[]` branch is
unreachable (`ensure_weeks` never yields an empty buffer). -/
def calendarRender (styler : Int → Nat) (area0 : Rect) (buf : Buf) (ww : WeekWindow) :
    WeekWindow × Buf :=
  let area := calChunk area0
  let today := ww.today
  let ww1 := ensure_weeks styler ww (weeks_for_lines area.height)
  let weeks := (ww1.weeks).getD []
  let buf := draw_header area buf
  match weeks with
  | [] => (ww1, buf)
  | top :: _ =>
    let buf := draw_year area buf 0 (firstYM top).1
    let buf := draw_month area buf 0 (lastYM top).2
    let buf := weeks.enum.foldl (fun b p => renderWeekRow area today weeks.length b p.1 p.2) buf
    (ww1, buf)

theorem setCell_outside (buf : Buf) (p q : Nat × Nat) (c : Cell) (h : q ≠ p) :
    setCell buf p c q = buf q := by
  unfold setCell
  rw [if_neg h]

theorem setCh_outside (buf : Buf) (p q : Nat × Nat) (c : Char) (h : q ≠ p) :
    setCh buf p c q = buf q := by
  unfold setCh
  rw [if_neg h]

theorem foldl_setCell_outside (r : Rect) (s : List Char) (st : Nat) (l : List Nat)
    (hl : ∀ i ∈ l, i < r.width) (hh : 0 < r.height) (buf : Buf) (q : Nat × Nat)
    (hq : ¬inRect r q) :
    l.foldl (fun b i => setCell b (r.x + i, r.y) ⟨s.getD i ' ', st⟩) buf q = buf q := by
  induction l generalizing buf with
  | nil => rfl
  | cons a t ih =>
    rw [List.foldl_cons, ih (fun i hi => hl i (List.mem_cons_of_mem a hi))]
    apply setCell_outside
    intro hcon
    apply hq
    rw [hcon]
    have ha : a < r.width := hl a (List.mem_cons_self ..)
    exact ⟨by omega, by omega, by omega, by omega⟩

theorem renderSpan_outside (r : Rect) (s : List Char) (st : Nat) (buf : Buf) (q : Nat × Nat)
    (hq : ¬inRect r q) : renderSpan r s st buf q = buf q := by
  unfold renderSpan
  split
  · rfl
  · next hh =>
    apply foldl_setCell_outside r s st _ _ (by omega) buf q hq
    intro i hi
    rw [List.mem_range] at hi
    omega

theorem inRect_intersection (a b : Rect) (q : Nat × Nat)
    (h : inRect (Rect.intersection a b) q) : inRect b q := by
  unfold Rect.intersection at h
  unfold inRect at h ⊢
  simp only at h
  unfold Rect.right Rect.bottom at h
  omega

theorem mvprint_outside (area : Rect) (buf : Buf) (y x : Nat) (s : List Char) (st : Nat)
    (q : Nat × Nat) (hq : ¬inRect area q) : mvprint area buf y x s st q = buf q := by
  unfold mvprint
  apply renderSpan_outside
  intro hcon
  exact hq (inRect_intersection _ area q hcon)

theorem mvaddch_outside (area : Rect) (buf : Buf) (y x : Nat) (ch : Char)
    (q : Nat × Nat) (hq : ¬inRect area q) : mvaddch area buf y x ch q = buf q := by
  unfold mvaddch
  split
  · next hin =>
    apply setCh_outside
    intro hcon
    apply hq
    rw [hcon]
    exact ⟨by omega, by omega, by omega, by omega⟩
  · rfl

theorem hline_outside (area : Rect) (buf : Buf) (y x : Nat) (ch : Char) (len : Nat)
    (q : Nat × Nat) (hq : ¬inRect area q) : hline area buf y x ch len q = buf q :=
  mvprint_outside area buf y x (List.replicate len ch) 0 q hq

theorem draw_header_outside (area : Rect) (buf : Buf) (q : Nat × Nat)
    (hq : ¬inRect area q) : draw_header area buf q = buf q := by
  unfold draw_header
  rw [hline_outside _ _ _ _ _ _ _ hq, mvprint_outside _ _ _ _ _ _ _ hq]

theorem draw_year_outside (area : Rect) (buf : Buf) (week_no : Nat) (year : Int)
    (q : Nat × Nat) (hq : ¬inRect area q) : draw_year area buf week_no year q = buf q :=
  mvprint_outside area buf _ _ _ _ q hq

theorem draw_month_outside (area : Rect) (buf : Buf) (week_no : Nat) (month : Int)
    (q : Nat × Nat) (hq : ¬inRect area q) : draw_month area buf week_no month q = buf q :=
  mvprint_outside area buf _ _ _ _ q hq

theorem draw_day_outside (area : Rect) (buf : Buf) (week_no wd : Nat) (sp : List Char × Nat)
    (q : Nat × Nat) (hq : ¬inRect area q) : draw_day area buf week_no wd sp q = buf q :=
  mvprint_outside area buf _ _ _ _ q hq

theorem draw_month_border_outside (area : Rect) (buf : Buf) (week_no wd : Nat)
    (q : Nat × Nat) (hq : ¬inRect area q) : draw_month_border area buf week_no wd q = buf q := by
  unfold draw_month_border
  rw [hline_outside _ _ _ _ _ _ _ hq]
  split
  · rw [mvaddch_outside _ _ _ _ _ _ hq]
    split
    · split
      · rw [hline_outside _ _ _ _ _ _ _ hq, mvaddch_outside _ _ _ _ _ _ hq,
          mvaddch_outside _ _ _ _ _ _ hq]
      · rw [mvaddch_outside _ _ _ _ _ _ hq, mvaddch_outside _ _ _ _ _ _ hq]
    · rw [mvaddch_outside _ _ _ _ _ _ hq, mvaddch_outside _ _ _ _ _ _ hq]
  · rfl

theorem foldl_buf_outside {β : Type} (area : Rect) (f : Buf → β → Buf)
    (hf : ∀ b x q, ¬inRect area q → f b x q = b q) (l : List β) (buf : Buf) (q : Nat × Nat)
    (hq : ¬inRect area q) : l.foldl f buf q = buf q := by
  induction l generalizing buf with
  | nil => rfl
  | cons a t ih =>
    rw [List.foldl_cons, ih]
    exact hf buf a q hq

theorem renderWeekRow_outside (area : Rect) (today : Int) (total : Nat) (buf : Buf)
    (i : Nat) (w : Week) (q : Nat × Nat) (hq : ¬inRect area q) :
    renderWeekRow area today total buf i w q = buf q := by
  unfold renderWeekRow
  rw [foldl_buf_outside area _ ?hf _ _ q hq]
  case hf =>
    intro b x p hp
    dsimp only
    split
    · rw [draw_month_border_outside _ _ _ _ _ hp, draw_day_outside _ _ _ _ _ _ hp]
    · split
      · split
        · rw [draw_month_border_outside _ _ _ _ _ hp, draw_day_outside _ _ _ _ _ _ hp]
        · split
          · rw [draw_month_border_outside _ _ _ _ _ hp, draw_day_outside _ _ _ _ _ _ hp]
          · rw [draw_day_outside _ _ _ _ _ _ hp]
      · rw [draw_day_outside _ _ _ _ _ _ hp]
  dsimp only
  split
  · split
    · split
      · rw [draw_year_outside _ _ _ _ _ hq, draw_month_outside _ _ _ _ _ hq]
      · split
        · rw [draw_year_outside _ _ _ _ _ hq, draw_month_outside _ _ _ _ _ hq]
        · rw [draw_month_outside _ _ _ _ _ hq]
    · rw [draw_month_outside _ _ _ _ _ hq]
  · rfl

theorem calChunk_sub (area : Rect) (q : Nat × Nat) (h : inRect (calChunk area) q) :
    inRect area q := by
  unfold calChunk at h
  unfold inRect at h ⊢
  simp only at h
  omega

theorem calendarRender_outside (styler : Int → Nat) (area0 : Rect) (buf : Buf)
    (ww : WeekWindow) (q : Nat × Nat) (hq : ¬inRect area0 q) :
    (calendarRender styler area0 buf ww).2 q = buf q := by
  have hq2 : ¬inRect (calChunk area0) q := fun hc => hq (calChunk_sub area0 q hc)
  unfold calendarRender
  dsimp only
  split
  · dsimp only
    rw [draw_header_outside _ _ _ hq2]
  · dsimp only
    rw [foldl_buf_outside (calChunk area0) _ ?hf _ _ q hq2]
    case hf =>
      intro b x p hp
      exact renderWeekRow_outside _ _ _ _ _ _ _ hp
    rw [draw_month_outside _ _ _ _ _ hq2, draw_year_outside _ _ _ _ _ hq2,
      draw_header_outside _ _ _ hq2]
/-- C10: rendering is total and clipped.  Every primitive drawing operation
(single character `mvaddch`, string `mvprint`, horizontal line `hline`)
leaves every cell outside the provided rectangle unchanged, and so does the
whole calendar render; moreover on a valid window (buffer nonempty when
materialized, with any rectangle including zero-area ones) the render's
window keeps a nonempty materialized buffer, so the renderer's only partial
operations (the nonempty-buffer `expect`s) cannot fail — the render is a
total function. -/
theorem C10_render_clipped (styler : Int → Nat) (area : Rect) (buf : Buf) (ww : WeekWindow)
    (q : Nat × Nat) (hq : ¬inRect area q) :
    (∀ y x ch, mvaddch area buf y x ch q = buf q) ∧
    (∀ y x s st, mvprint area buf y x s st q = buf q) ∧
    (∀ y x ch len, hline area buf y x ch len q = buf q) ∧
    (calendarRender styler area buf ww).2 q = buf q ∧
    (goodWW ww → goodWW (calendarRender styler area buf ww).1 ∧
      (calendarRender styler area buf ww).1.weeks ≠ none) := by
  refine ⟨fun y x ch => mvaddch_outside area buf y x ch q hq,
    fun y x s st => mvprint_outside area buf y x s st q hq,
    fun y x ch len => hline_outside area buf y x ch len q hq,
    calendarRender_outside styler area buf ww q hq, ?_⟩
  intro hv
  have h1 : (calendarRender styler area buf ww).1 =
      ensure_weeks styler ww (weeks_for_lines (calChunk area).height) := by
    unfold calendarRender
    dsimp only
    split
    · rfl
    · rfl
  rw [h1]
  exact ensure_weeks_good styler ww (weeks_for_lines (calChunk area).height)
    (by unfold weeks_for_lines; omega) hv

/-- C10 witness: a cell outside a concrete 80x24 area is untouched by a full
render of a fresh window, whose buffer comes out materialized. -/
theorem C10_render_clipped_witness :
    (calendarRender (fun _ => 0) ⟨0, 0, 80, 24⟩ (fun _ => ⟨' ', 0⟩)
      (WeekWindow.new 0)).2 (100, 100) = (fun _ => (⟨' ', 0⟩ : Cell)) (100, 100) ∧
    ¬((calendarRender (fun _ => 0) ⟨0, 0, 80, 24⟩ (fun _ => ⟨' ', 0⟩)
      (WeekWindow.new 0)).1.weeks = none) := by
  have h := C10_render_clipped (fun _ => 0) ⟨0, 0, 80, 24⟩ (fun _ => ⟨' ', 0⟩)
    (WeekWindow.new 0) (100, 100) (by decide)
  exact ⟨h.2.2.2.1, (h.2.2.2.2 (fun l hl => Option.noConfusion hl)).2⟩

end NH
